import Mathlib

/-!
Verification of the EIP-712 schema/encoding engine (Conflux ledger-rust-eip712).

The Rust sources are shallowly embedded: byte buffers are `List Nat` (each
element a `u8` value), fallible functions return `Except String`, the keccak256
hash is an explicit function parameter (it is an external collaborator), and
`BTreeMap` registries are association lists kept in sorted key order.  Rust
panics (out-of-bounds indexing, `unreachable!`) are modelled as `Except.error`
values whose message starts with `"panic: "`; every other `.error` value models
a returned `Err`.  Recursions that walk the registry (which the code does not
guard against cycles) take an explicit fuel argument.
-/

deriving instance DecidableEq for Except

set_option maxRecDepth 100000

namespace Eip712

/-- Lexicographic (non-strict) order on code-point lists.  Rust's `Ord` for
`String` compares UTF-8 bytes, which orders strings exactly as their code
points do, so this models the comparison used by `Vec::sort` and `BTreeMap`. -/
def charListLe : List Char → List Char → Bool
  | [], _ => true
  | _ :: _, [] => false
  | x :: xs, y :: ys =>
    if x.toNat < y.toNat then true
    else if y.toNat < x.toNat then false
    else charListLe xs ys

/-- Strict variant of `charListLe`. -/
def charListLt : List Char → List Char → Bool
  | [], [] => false
  | [], _ :: _ => true
  | _ :: _, [] => false
  | x :: xs, y :: ys =>
    if x.toNat < y.toNat then true
    else if y.toNat < x.toNat then false
    else charListLt xs ys

/-- Rust `String` comparison (`a <= b`). -/
def strLe (a b : String) : Bool := charListLe a.data b.data

/-- Rust `String` comparison (`a < b`). -/
def strLt (a b : String) : Bool := charListLt a.data b.data

/-- Big-endian interpretation of a byte list, as in `from_be_bytes`. -/
def beNat (l : List Nat) : Nat := l.foldl (fun acc b => acc * 256 + b) 0

/-- Big-endian encoding of `n` into exactly `w` bytes (as in `to_be_bytes`
applied to a value already reduced modulo `256 ^ w`). -/
def natToBeBytes (w : Nat) (n : Nat) : List Nat :=
  (List.range w).map (fun i => n / 256 ^ (w - 1 - i) % 256)

/-- Two's-complement reading of an unsigned value of `bits` bits, as done by
`i128::from_be_bytes` / `I256::from_be_bytes`. -/
def twosComp (bits : Nat) (n : Nat) : Int :=
  if n < 2 ^ (bits - 1) then (n : Int) else (n : Int) - 2 ^ bits

/-- UTF-8 encoding of one scalar value (the standard layout used by Rust's
`str::as_bytes`). -/
def utf8Char (c : Char) : List Nat :=
  let n := c.toNat
  if n < 0x80 then [n]
  else if n < 0x800 then [0xC0 + n / 64, 0x80 + n % 64]
  else if n < 0x10000 then [0xE0 + n / 4096, 0x80 + n / 64 % 64, 0x80 + n % 64]
  else [0xF0 + n / 262144, 0x80 + n / 4096 % 64, 0x80 + n / 64 % 64, 0x80 + n % 64]

/-- UTF-8 bytes of a string, modelling Rust `String::as_bytes`. -/
def strBytes (s : String) : List Nat := s.data.foldr (fun c acc => utf8Char c ++ acc) []

/-- Continuation-byte test for the UTF-8 decoder. -/
def isCont (b : Nat) : Bool := 0x80 ≤ b && b ≤ 0xBF

/-- Validating UTF-8 decoder, modelling Rust `String::from_utf8` (rejects
overlong forms, surrogates and values above U+10FFFF). -/
def utf8Decode : List Nat → Option (List Char)
  | [] => some []
  | b :: bs =>
    if b < 0x80 then
      match utf8Decode bs with
      | some cs => some (Char.ofNat b :: cs)
      | none => none
    else if 0xC2 ≤ b && b ≤ 0xDF then
      match bs with
      | b1 :: bs1 =>
        if isCont b1 then
          match utf8Decode bs1 with
          | some cs => some (Char.ofNat ((b - 0xC0) * 64 + (b1 - 0x80)) :: cs)
          | none => none
        else none
      | [] => none
    else if 0xE0 ≤ b && b ≤ 0xEF then
      match bs with
      | b1 :: b2 :: bs2 =>
        let v := (b - 0xE0) * 4096 + (b1 - 0x80) * 64 + (b2 - 0x80)
        if isCont b1 && isCont b2 && 0x800 ≤ v && ¬ (0xD800 ≤ v && v ≤ 0xDFFF) then
          match utf8Decode bs2 with
          | some cs => some (Char.ofNat v :: cs)
          | none => none
        else none
      | _ => none
    else if 0xF0 ≤ b && b ≤ 0xF4 then
      match bs with
      | b1 :: b2 :: b3 :: bs3 =>
        let v := (b - 0xF0) * 262144 + (b1 - 0x80) * 4096 + (b2 - 0x80) * 64 + (b3 - 0x80)
        if isCont b1 && isCont b2 && isCont b3 && 0x10000 ≤ v && v ≤ 0x10FFFF then
          match utf8Decode bs3 with
          | some cs => some (Char.ofNat v :: cs)
          | none => none
        else none
      | _ => none
    else none

/-- Model of `utils::parse_utf8_string` (`String::from_utf8`). -/
def parse_utf8_string (data : List Nat) : Except String String :=
  match utf8Decode data with
  | some cs => .ok (String.mk cs)
  | none => .error "Invalid UTF-8 in custom type"

/-- Lowercase hex digits of one byte, as in Rust's `hex::encode`. -/
def hexByte (b : Nat) : String :=
  String.mk [Nat.digitChar (b / 16 % 16), Nat.digitChar (b % 16)]

/-- `hex::encode` over a byte list. -/
def hexEncode (l : List Nat) : String := String.join (l.map hexByte)

/-- Minimal-digit lowercase hex of a natural number, as in Rust's `{:x}`. -/
def hexOfNat (n : Nat) : String := String.mk (Nat.toDigits 16 n)

/-! ## Data model (`types.rs`) -/

/-- `Eip712FieldType` from `types.rs`. -/
inductive Eip712FieldType where
  | custom (name : String)
  | int (size : Nat)
  | uint (size : Nat)
  | address
  | bool
  | string
  | fixedBytes (size : Nat)
  | dynamicBytes
  deriving Repr, DecidableEq

/-- `Eip712ArrayLevel` from `types.rs`. -/
inductive Eip712ArrayLevel where
  | dynamic
  | fixed (size : Nat)
  deriving Repr, DecidableEq

/-- `Eip712FieldDefinition` from `types.rs`. -/
structure Eip712FieldDefinition where
  field_type : Eip712FieldType
  name : String
  array_levels : List Eip712ArrayLevel
  deriving Repr, DecidableEq

/-- `Eip712FieldType::type_string`. -/
def Eip712FieldType.type_string : Eip712FieldType → String
  | .custom name => name
  | .int size => "int" ++ toString (size * 8)
  | .uint size => "uint" ++ toString (size * 8)
  | .address => "address"
  | .bool => "bool"
  | .string => "string"
  | .fixedBytes size => "bytes" ++ toString size
  | .dynamicBytes => "bytes"

/-- `Eip712FieldType::type_size`. -/
def Eip712FieldType.type_size : Eip712FieldType → Option Nat
  | .int size => some size
  | .uint size => some size
  | .fixedBytes size => some size
  | _ => none

/-- `Eip712FieldType::type_string_and_size`. -/
def Eip712FieldType.type_string_and_size (t : Eip712FieldType) : String × Option Nat :=
  let nm := match t with
    | .custom name => name
    | .int _ => "int"
    | .uint _ => "uint"
    | .address => "address"
    | .bool => "bool"
    | .string => "string"
    | .fixedBytes _ => "bytes"
    | .dynamicBytes => "bytes"
  (nm, t.type_size)

/-- `Eip712ArrayLevel::type_string`. -/
def Eip712ArrayLevel.type_string : Eip712ArrayLevel → String
  | .dynamic => "[]"
  | .fixed size => "[" ++ toString size ++ "]"

/-- `Eip712FieldDefinition::is_struct`. -/
def Eip712FieldDefinition.is_struct (f : Eip712FieldDefinition) : Bool :=
  match f.field_type with
  | .custom _ => true
  | _ => false

/-- `Eip712FieldDefinition::is_array`. -/
def Eip712FieldDefinition.is_array (f : Eip712FieldDefinition) : Bool :=
  ¬ f.array_levels.isEmpty

/-- `Eip712FieldDefinition::type_string` (base type string plus one suffix per
array level, in declaration order). -/
def Eip712FieldDefinition.type_string (f : Eip712FieldDefinition) : String :=
  f.field_type.type_string ++ String.join (f.array_levels.map Eip712ArrayLevel.type_string)

/-- `Eip712FieldDefinition::primitive_type_string_and_size`. -/
def Eip712FieldDefinition.primitive_type_string_and_size (f : Eip712FieldDefinition) :
    String × Option Nat :=
  f.field_type.type_string_and_size

/-- `Eip712StructDefinitions = BTreeMap<String, Vec<Eip712FieldDefinition>>`,
modelled as an association list kept in ascending key order. -/
def Eip712StructDefinitions := List (String × List Eip712FieldDefinition)

/-- `BTreeMap::get` on the registry. -/
def lookupDefs (defs : Eip712StructDefinitions) (name : String) :
    Option (List Eip712FieldDefinition) :=
  match defs with
  | [] => none
  | (k, v) :: rest => if k = name then some v else lookupDefs rest name

/-- `BTreeMap::get` on a string-to-string map. -/
def lookupStr (m : List (String × String)) (name : String) : Option String :=
  match m with
  | [] => none
  | (k, v) :: rest => if k = name then some v else lookupStr rest name

/-! ## Field-definition codec (`Eip712FieldDefinition::from_bytes`) -/

/-- `bytes::Buf::try_get_u8`: pop one byte off the cursor. -/
def tryGetU8 (buf : List Nat) : Except String (Nat × List Nat) :=
  match buf with
  | [] => .error "Invalid len"
  | b :: rest => .ok (b, rest)

/-- The `remaining() < len` check followed by `copy_to_slice`, with the
site-specific truncation message. -/
def takeExact (msg : String) (n : Nat) (buf : List Nat) :
    Except String (List Nat × List Nat) :=
  if buf.length < n then .error msg
  else .ok (buf.take n, buf.drop n)

/-- The array-level loop of `from_bytes`: `level_count` iterations, each one
level-kind byte (0 dynamic, 1 fixed plus a size byte, other fatal). -/
def readLevels : Nat → List Nat → Except String (List Eip712ArrayLevel × List Nat)
  | 0, buf => .ok ([], buf)
  | n + 1, buf =>
    match tryGetU8 buf with
    | .error e => .error e
    | .ok (d, buf1) =>
      match d with
      | 0 =>
        match readLevels n buf1 with
        | .error e => .error e
        | .ok (ls, buf2) => .ok (.dynamic :: ls, buf2)
      | 1 =>
        match tryGetU8 buf1 with
        | .error e => .error e
        | .ok (s, buf2) =>
          match readLevels n buf2 with
          | .error e => .error e
          | .ok (ls, buf3) => .ok (.fixed s :: ls, buf3)
      | _ => .error "Unknown array level type"

/-- The kind-specific part of `from_bytes`: decode the `Eip712FieldType` from
the descriptor byte and the following bytes. -/
def readFieldType (type_desc : Nat) (buf : List Nat) :
    Except String (Eip712FieldType × List Nat) :=
  let is_type_size_specified := type_desc &&& 0x40 = 0x40
  match type_desc &&& 0x0F with
  | 0 =>
    match tryGetU8 buf with
    | .error e => .error e
    | .ok (len, buf1) =>
      match takeExact "Unexpected end of input when reading custom name" len buf1 with
      | .error e => .error e
      | .ok (nameBytes, buf2) =>
        match parse_utf8_string nameBytes with
        | .error e => .error e
        | .ok nm => .ok (.custom nm, buf2)
  | 1 =>
    if is_type_size_specified then
      match tryGetU8 buf with
      | .error e => .error e
      | .ok (s, buf1) => .ok (.int s, buf1)
    else .error "Int type must specify size"
  | 2 =>
    if is_type_size_specified then
      match tryGetU8 buf with
      | .error e => .error e
      | .ok (s, buf1) => .ok (.uint s, buf1)
    else .error "Int type must specify size"
  | 3 => .ok (.address, buf)
  | 4 => .ok (.bool, buf)
  | 5 => .ok (.string, buf)
  | 6 =>
    if is_type_size_specified then
      match tryGetU8 buf with
      | .error e => .error e
      | .ok (s, buf1) => .ok (.fixedBytes s, buf1)
    else .error "Int type must specify size"
  | 7 => .ok (.dynamicBytes, buf)
  | _ => .error "Unknown field type"

/-- `Eip712FieldDefinition::from_bytes` (`types.rs`): descriptor byte (bit 7
is-array, bit 6 has-size, bits 0-3 kind), kind-specific bytes, array levels
when bit 7 is set, then the length-prefixed UTF-8 field name.  Trailing bytes
are ignored. -/
def from_bytes (bytes : List Nat) : Except String Eip712FieldDefinition :=
  match tryGetU8 bytes with
  | .error e => .error e
  | .ok (type_desc, buf0) =>
    let is_array := type_desc &&& 0x80 = 0x80
    match readFieldType type_desc buf0 with
    | .error e => .error e
    | .ok (field_type, buf1) =>
      let levelsRes : Except String (List Eip712ArrayLevel × List Nat) :=
        if is_array then
          match tryGetU8 buf1 with
          | .error e => .error e
          | .ok (cnt, buf2) => readLevels cnt buf2
        else .ok ([], buf1)
      match levelsRes with
      | .error e => .error e
      | .ok (array_levels, buf3) =>
        match tryGetU8 buf3 with
        | .error e => .error e
        | .ok (name_len, buf4) =>
          match takeExact "Unexpected end of input when reading field name" name_len buf4 with
          | .error e => .error e
          | .ok (nameBytes, _) =>
            match parse_utf8_string nameBytes with
            | .error e => .error e
            | .ok name => .ok ⟨field_type, name, array_levels⟩

/-! ## Integer parsing helpers (`utils.rs`) -/

/-- `utils::parse_u128`: at most 16 bytes, zero-extended, big-endian. -/
def parse_u128 (data : List Nat) : Except String Nat :=
  if 16 < data.length then .error "u128 len should be <= 16"
  else .ok (beNat (List.replicate (16 - data.length) 0 ++ data))

/-- `utils::parse_u256`: at most 32 bytes, zero-extended, big-endian. -/
def parse_u256 (data : List Nat) : Except String Nat :=
  if 32 < data.length then .error "u256 len should be <= 32"
  else .ok (beNat (List.replicate (32 - data.length) 0 ++ data))

/-- `utils::parse_i128`: the raw bytes are first zero-padded to the declared
byte `size`, then sign-extended from the top bit of the padded buffer into a
16-byte two's-complement value.  Indexing the padded buffer when `size = 0`,
and slicing when `size > 16`, are Rust panics. -/
def parse_i128 (data : List Nat) (size : Nat) : Except String Int :=
  if size < data.length then .error "i128 len should be <= 16"
  else
    match List.replicate (size - data.length) 0 ++ data with
    | [] => .error "panic: index out of bounds"
    | p0 :: prest =>
      let sign : Nat := if p0 &&& 0x80 ≠ 0 then 0xFF else 0x00
      if 16 < size then .error "panic: slice index out of range"
      else .ok (twosComp 128 (beNat (List.replicate (16 - size) sign ++ p0 :: prest)))

/-- `utils::parse_i256`: as `parse_i128` with a 32-byte buffer. -/
def parse_i256 (data : List Nat) (size : Nat) : Except String Int :=
  if size < data.length then .error "i256 len should be <= 32"
  else
    match List.replicate (size - data.length) 0 ++ data with
    | [] => .error "panic: index out of bounds"
    | p0 :: prest =>
      let sign : Nat := if p0 &&& 0x80 ≠ 0 then 0xFF else 0x00
      if 32 < size then .error "panic: slice index out of range"
      else .ok (twosComp 256 (beNat (List.replicate (32 - size) sign ++ p0 :: prest)))

/-- `parser.rs` invokes `parse_i128` with only the raw buffer (no declared
size is passed).  Modelled from the `utils.rs` comment ("if value is negative,
then it must be 16 bytes with sign extension"): the value is sign-extended
from the buffer's own leading byte. -/
def parse_i128_raw (data : List Nat) : Except String Int :=
  if 16 < data.length then .error "i128 len should be <= 16"
  else
    match data with
    | [] => .error "panic: index out of bounds"
    | p0 :: prest =>
      let sign : Nat := if p0 &&& 0x80 ≠ 0 then 0xFF else 0x00
      .ok (twosComp 128 (beNat (List.replicate (16 - data.length) sign ++ p0 :: prest)))

/-- One-argument `parse_i256` as invoked by `parser.rs`; see `parse_i128_raw`. -/
def parse_i256_raw (data : List Nat) : Except String Int :=
  if 32 < data.length then .error "i256 len should be <= 32"
  else
    match data with
    | [] => .error "panic: index out of bounds"
    | p0 :: prest =>
      let sign : Nat := if p0 &&& 0x80 ≠ 0 then 0xFF else 0x00
      .ok (twosComp 256 (beNat (List.replicate (32 - data.length) sign ++ p0 :: prest)))

/-! ## Type-string builder (`eip712.rs`) -/

/-- The per-struct canonical signature built by
`encode_types_without_sub_type`: `"Name(type1 field1,type2 field2,...)"`. -/
def own_signature (struct_name : String) (field_defs : List Eip712FieldDefinition) : String :=
  struct_name ++ "(" ++
    String.intercalate "," (field_defs.map (fun fd => fd.type_string ++ " " ++ fd.name)) ++ ")"

/-- `encode_types_without_sub_type` (its `Result` is always `Ok` in the
source): the name-to-own-signature map, in registry key order. -/
def encode_types_without_sub_type (struct_defs : Eip712StructDefinitions) :
    List (String × String) :=
  match struct_defs with
  | [] => []
  | (nm, fds) :: rest => (nm, own_signature nm fds) :: encode_types_without_sub_type rest

/-- `Vec::sort` on strings: stable ascending sort (insertion sort computes the
same function). -/
def insertSorted (x : String) : List String → List String
  | [] => [x]
  | y :: ys => if strLe x y then x :: y :: ys else y :: insertSorted x ys

/-- `Vec::sort` over the collected sub-type names. -/
def sortStrings (l : List String) : List String := l.foldr insertSorted []

/-- `Vec::dedup`: remove consecutive repeated elements. -/
def dedupConsec : List String → List String
  | [] => []
  | [x] => [x]
  | x :: y :: rest =>
    if x = y then dedupConsec (y :: rest) else x :: dedupConsec (y :: rest)

/-- The field loop of `find_sub_custom_types`: for each struct-typed field,
recurse (via the supplied recursive call `recCall`) into the field's custom
type, append the recursive result and then the custom type name itself. -/
def collectSubs (recCall : String → Except String (List String)) :
    List Eip712FieldDefinition → Except String (List String)
  | [] => .ok []
  | f :: fs =>
    if f.is_struct then
      match recCall f.field_type.type_string with
      | .error e => .error e
      | .ok sub =>
        match collectSubs recCall fs with
        | .error e => .error e
        | .ok rest => .ok (sub ++ f.field_type.type_string :: rest)
    else collectSubs recCall fs

/-- `find_sub_custom_types` (`eip712.rs`): transitively collect the custom
types reachable from a struct's fields, then sort and dedup.  The Rust
recursion has no cycle guard, so the model takes an explicit recursion-depth
fuel; any fuel at least the registry's reference depth is enough. -/
def find_sub_custom_types (struct_defs : Eip712StructDefinitions) :
    Nat → String → Except String (List String)
  | 0, _ => .error "recursion depth limit"
  | fuel + 1, type_name =>
    match lookupDefs struct_defs type_name with
    | none => .error (type_name ++ " field defs not found")
    | some field_defs =>
      match collectSubs (find_sub_custom_types struct_defs fuel) field_defs with
      | .error e => .error e
      | .ok res => .ok (dedupConsec (sortStrings res))

/-- The lookup loop of `encode_type`: the own signature of every collected
sub-type, in order. -/
def subSignatures (struct_types : List (String × String)) :
    List String → Except String (List String)
  | [] => .ok []
  | c :: cs =>
    match lookupStr struct_types c with
    | none => .error "not found"
    | some s =>
      match subSignatures struct_types cs with
      | .error e => .error e
      | .ok rest => .ok (s :: rest)

/-- `encode_type` (`eip712.rs`): own signature of `type_name` followed by the
own signatures of its sorted sub custom types. -/
def encode_type (struct_types : List (String × String))
    (struct_defs : Eip712StructDefinitions) (fuel : Nat) (type_name : String) :
    Except String String :=
  match lookupStr struct_types type_name with
  | none => .error "not found"
  | some own =>
    match find_sub_custom_types struct_defs fuel type_name with
    | .error e => .error e
    | .ok subs =>
      match subSignatures struct_types subs with
      | .error e => .error e
      | .ok sigs => .ok (own ++ String.join sigs)

/-- The registry loop of `encode_all_struct_type`. -/
def encodeAllGo (struct_types : List (String × String))
    (struct_defs : Eip712StructDefinitions) (fuel : Nat) :
    List (String × List Eip712FieldDefinition) → Except String (List (String × String))
  | [] => .ok []
  | (nm, _) :: rest =>
    match encode_type struct_types struct_defs fuel nm with
    | .error e => .error e
    | .ok s =>
      match encodeAllGo struct_types struct_defs fuel rest with
      | .error e => .error e
      | .ok m => .ok ((nm, s) :: m)

/-- `encode_all_struct_type` (`eip712.rs`): the name-to-full-type-string map
over the whole registry. -/
def encode_all_struct_type (struct_defs : Eip712StructDefinitions) (fuel : Nat) :
    Except String (List (String × String)) :=
  encodeAllGo (encode_types_without_sub_type struct_defs) struct_defs fuel struct_defs

end Eip712


namespace Eip712

/-! ## Schema builder (`parser.rs`) -/

/-- `TypeSchema` from `parser.rs` (the `Struct` variant carries its struct
name, as matched on by `encode_data` in `eip712.rs`); fields are ordered
`(name, schema)` pairs. -/
inductive TypeSchema where
  | primitive (name : String) (size : Option Nat)
  | array (item : TypeSchema)
  | struct (name : String) (fields : List (String × TypeSchema))

/-- `N` array levels produce `N` nested `Array` wrappers. -/
def wrapArrays : Nat → TypeSchema → TypeSchema
  | 0, t => t
  | n + 1, t => wrapArrays n (.array t)

/-- The field loop of `build_schema`: custom fields recurse (via the supplied
recursive call `recCall`), primitive fields become `Primitive` nodes, and each
array level wraps the schema in one more `Array` layer. -/
def buildFields (recCall : String → Except String TypeSchema) :
    List Eip712FieldDefinition → Except String (List (String × TypeSchema))
  | [] => .ok []
  | fd :: rest =>
    let tyE : Except String TypeSchema :=
      if fd.is_struct then
        match fd.field_type with
        | .custom n => recCall n
        | _ => .error "panic: should exist"
      else
        let (nm, sz) := fd.primitive_type_string_and_size
        .ok (.primitive nm sz)
    match tyE with
    | .error e => .error e
    | .ok ty0 =>
      let ty := wrapArrays fd.array_levels.length ty0
      match buildFields recCall rest with
      | .error e => .error e
      | .ok fs => .ok ((fd.name, ty) :: fs)

/-- `build_schema` (`parser.rs`), fuelled like `find_sub_custom_types`. -/
def build_schema (struct_defs : Eip712StructDefinitions) :
    Nat → String → Except String TypeSchema
  | 0, _ => .error "recursion depth limit"
  | fuel + 1, type_name =>
    match lookupDefs struct_defs type_name with
    | none => .error "not found"
    | some field_defs =>
      match buildFields (build_schema struct_defs fuel) field_defs with
      | .error e => .error e
      | .ok fields => .ok (.struct type_name fields)

/-! ## ABI word encodings (`alloy` `SolValue::abi_encode` on the types the
encoder uses) -/

/-- `abi_encode` of a `u128`/`U256` value: one 32-byte big-endian word. -/
def abiWordOfNat (n : Nat) : List Nat := natToBeBytes 32 n

/-- `abi_encode` of an `i128`/`I256` value: one 32-byte two's-complement
word (the value sign-extended to 256 bits). -/
def abiWordOfInt (v : Int) : List Nat := natToBeBytes 32 (v % (2 ^ 256 : Int)).toNat

/-- `abi_encode` of an `Address`: 12 zero bytes then the 20 address bytes. -/
def abiAddress (raw : List Nat) : List Nat := List.replicate 12 0 ++ raw

/-- Length of `n` bytes right-padded to a multiple of 32. -/
def pad32Len (n : Nat) : Nat := (n + 31) / 32 * 32

/-- `abi_encode` of an `alloy_primitives::Bytes` value (a dynamic `bytes`
value, as produced by the encoder's fixed-bytes branch): offset word `0x20`,
length word, then the bytes right-padded to a 32-byte multiple. -/
def abiDynBytes (raw : List Nat) : List Nat :=
  natToBeBytes 32 32 ++ natToBeBytes 32 raw.length ++ raw ++
    List.replicate (pad32Len raw.length - raw.length) 0

/-! ## Value encoder (`eip712.rs::encode_data`) -/

/-- `hash_struct` (`eip712.rs`): `keccak256(keccak256(typeString) ‖ fieldBytes)`. -/
def hash_struct (k : List Nat → List Nat) (type_str : String) (encoded_data : List Nat) :
    List Nat :=
  k (k (strBytes type_str) ++ encoded_data)

/-- The struct-wrapping step shared by the array and struct arms of
`encode_data`: a `Struct`-schema result is replaced by its `hash_struct`
(after looking up the struct's full type string). -/
def wrapIfStruct (k : List Nat → List Nat) (struct_types : List (String × String))
    (item : TypeSchema) (v : List Nat) : Except String (List Nat) :=
  match item with
  | .struct nm _ =>
    match lookupStr struct_types nm with
    | none => .error "not found"
    | some ts => .ok (hash_struct k ts v)
  | _ => .ok v

/-- Pop-and-collect loop: run `f` against the stream `n` times, collecting the
results in order (the per-element body of the Rust `for _ in 0..len` loops). -/
def popSeq {α : Type} (f : List (List Nat) → Except String (α × List (List Nat))) :
    Nat → List (List Nat) → Except String (List α × List (List Nat))
  | 0, data => .ok ([], data)
  | n + 1, data =>
    match f data with
    | .error e => .error e
    | .ok (v, rest) =>
      match popSeq f n rest with
      | .error e => .error e
      | .ok (vs, rest2) => .ok (v :: vs, rest2)

/-- The primitive-leaf body of `encode_data`, applied to the one popped
buffer `raw`. -/
def encode_prim (k : List Nat → List Nat) (nm : String) (sz : Option Nat)
    (raw : List Nat) : Except String (List Nat) :=
  match nm with
  | "bool" =>
    match raw with
    | [] => .error "panic: index out of bounds"
    | b :: _ => .ok (abiWordOfNat (if b = 1 then 1 else 0))
  | "int" =>
    match sz with
    | none => .error "size info lacked"
    | some size =>
      if raw.length ≤ 16 ∧ size ≤ 16 then
        match parse_i128 raw size with
        | .error e => .error e
        | .ok v => .ok (abiWordOfInt v)
      else
        match parse_i256 raw size with
        | .error e => .error e
        | .ok v => .ok (abiWordOfInt v)
  | "uint" =>
    match sz with
    | none => .error "size info lacked"
    | some _ =>
      if raw.length ≤ 16 then
        match parse_u128 raw with
        | .error e => .error e
        | .ok v => .ok (abiWordOfNat v)
      else
        match parse_u256 raw with
        | .error e => .error e
        | .ok v => .ok (abiWordOfNat v)
  | "address" =>
    if raw.length = 20 then .ok (abiAddress raw) else .error "invalid address len"
  | "bytes" =>
    match sz with
    | some s => if raw.length = s then .ok (abiDynBytes raw) else .error "invalid fixed bytes len"
    | none => .ok (k raw)
  | "string" => .ok (k raw)
  | _ => .error "panic: unreachable"

mutual
/-- `encode_data` (`eip712.rs`): pre-order walk of schema and stream.  A
primitive leaf pops one buffer; an array node pops one single-byte length
marker and encodes that many elements (struct elements wrapped with
`hash_struct`), hashing the concatenation; a struct node concatenates its
fields' results (struct-typed fields wrapped with `hash_struct`).  The stream
is passed explicitly: the result carries the unread remainder. -/
def encode_data (k : List Nat → List Nat) (struct_types : List (String × String)) :
    TypeSchema → List (List Nat) → Except String (List Nat × List (List Nat))
  | .primitive nm sz, data =>
    match data with
    | [] => .error "build value data.next failed"
    | raw :: rest =>
      match encode_prim k nm sz raw with
      | .error e => .error e
      | .ok w => .ok (w, rest)
  | .array item, data =>
    match data with
    | [] => .error "build value data.next failed"
    | lenv :: rest =>
      if lenv.length = 1 then
        match popSeq (fun d =>
            match encode_data k struct_types item d with
            | .error e => .error e
            | .ok (v, r) =>
              match wrapIfStruct k struct_types item v with
              | .error e => .error e
              | .ok v2 => .ok (v2, r)) (lenv.headD 0) rest with
        | .error e => .error e
        | .ok (vs, rest2) => .ok (k vs.flatten, rest2)
      else .error "invalid array size len"
  | .struct _ fields, data => encode_fields k struct_types fields data
/-- The field loop of `encode_data`'s struct arm. -/
def encode_fields (k : List Nat → List Nat) (struct_types : List (String × String)) :
    List (String × TypeSchema) → List (List Nat) → Except String (List Nat × List (List Nat))
  | [], data => .ok ([], data)
  | (_, fty) :: fs, data =>
    match encode_data k struct_types fty data with
    | .error e => .error e
    | .ok (v, rest) =>
      match wrapIfStruct k struct_types fty v with
      | .error e => .error e
      | .ok v2 =>
        match encode_fields k struct_types fs rest with
        | .error e => .error e
        | .ok (tail, rest2) => .ok (v2 ++ tail, rest2)
end

/-- `eip712_signing_hash` (`eip712.rs`):
`keccak256(0x19 ‖ 0x01 ‖ domainSeparator ‖ hashStruct(primaryTypeString, encodedData))`.
The domain separator is an external input (`Eip712Domain::separator`). -/
def eip712_signing_hash (k : List Nat → List Nat) (struct_defs : Eip712StructDefinitions)
    (data : List (List Nat)) (primary_type : String) (domain_separator : List Nat)
    (fuel : Nat) : Except String (List Nat) :=
  match encode_all_struct_type struct_defs fuel with
  | .error e => .error e
  | .ok struct_types =>
    match build_schema struct_defs fuel primary_type with
    | .error e => .error e
    | .ok schema =>
      match lookupStr struct_types primary_type with
      | none => .error "type str not found"
      | some type_str =>
        match encode_data k struct_types schema data with
        | .error e => .error e
        | .ok (encoded_data, _) =>
          .ok (k (0x19 :: 0x01 :: (domain_separator ++ hash_struct k type_str encoded_data)))

end Eip712

namespace Eip712

/-! ## Value decoders (`parser.rs::build_value`, `parser.rs::build_ui_fields`) -/

/-- `serde_json::Value` as reachable from `build_value` (numbers are the
`i64`/`u64`-backed variants; the float variant is never produced here). -/
inductive JValue where
  | bool (b : Bool)
  | num (n : Int)
  | str (s : String)
  | arr (elems : List JValue)
  | obj (fields : List (String × JValue))

/-- `serde_json::Map::insert` (a `BTreeMap`): insert in ascending key order,
replacing an existing binding. -/
def mapInsert (key : String) (v : JValue) :
    List (String × JValue) → List (String × JValue)
  | [] => [(key, v)]
  | (k0, v0) :: rest =>
    if strLt key k0 then (key, v) :: (k0, v0) :: rest
    else if key = k0 then (key, v) :: rest
    else (k0, v0) :: mapInsert key v rest

/-- `serde_json::Number::from_i128`: representable iff the value fits `u64`
or `i64`. -/
def numberFitsInt (v : Int) : Prop := (0 ≤ v ∧ v < 2 ^ 64) ∨ (-(2 ^ 63) ≤ v ∧ v < 0)

instance (v : Int) : Decidable (numberFitsInt v) := by
  unfold numberFitsInt; infer_instance

/-- The primitive-leaf body of `build_value`, applied to the one popped
buffer `raw`.  The hex fallbacks model Rust's `{:#x}` on `i128`/`u128`/`U256`
and alloy's `I256::to_hex_string` (two's-complement digits). -/
def build_prim_value (nm : String) (sz : Option Nat) (raw : List Nat) :
    Except String JValue :=
  match nm with
  | "bool" =>
    match raw with
    | [] => .error "panic: index out of bounds"
    | b :: _ => .ok (.bool (b = 1))
  | "int" =>
    if (match sz with | some s => decide (s < raw.length) | none => false) then
      .error "invalid len"
    else if raw.length ≤ 16 then
      match parse_i128_raw raw with
      | .error e => .error e
      | .ok v =>
        if numberFitsInt v then .ok (.num v)
        else .ok (.str ("0x" ++ hexOfNat (v % (2 ^ 128 : Int)).toNat))
    else
      match parse_i256_raw raw with
      | .error e => .error e
      | .ok v => .ok (.str ("0x" ++ hexOfNat (v % (2 ^ 256 : Int)).toNat))
  | "uint" =>
    if (match sz with | some s => decide (s < raw.length) | none => false) then
      .error "invalid len"
    else if raw.length ≤ 16 then
      match parse_u128 raw with
      | .error e => .error e
      | .ok v =>
        if v < 2 ^ 64 then .ok (.num v) else .ok (.str ("0x" ++ hexOfNat v))
    else
      match parse_u256 raw with
      | .error e => .error e
      | .ok v => .ok (.str ("0x" ++ hexOfNat v))
  | "bytes" =>
    if (match sz with | some s => decide (raw.length ≠ s) | none => false) then
      .error "invalid len"
    else .ok (.str ("0x" ++ hexEncode raw))
  | "string" =>
    match parse_utf8_string raw with
    | .error e => .error e
    | .ok s => .ok (.str s)
  | "address" =>
    if raw.length ≠ 20 then .error "invalid len"
    else .ok (.str ("0x" ++ hexEncode raw))
  | _ => .error "panic: unreachable"

mutual
/-- `build_value` (`parser.rs`): same traversal and stream consumption as
`encode_data`, projecting leaves to display values. -/
def build_value : TypeSchema → List (List Nat) → Except String (JValue × List (List Nat))
  | .primitive nm sz, data =>
    match data with
    | [] => .error "invalid"
    | raw :: rest =>
      match build_prim_value nm sz raw with
      | .error e => .error e
      | .ok v => .ok (v, rest)
  | .array item, data =>
    match data with
    | [] => .error "invalid"
    | lenv :: rest =>
      if lenv.length = 1 then
        match popSeq (fun d => build_value item d) (lenv.headD 0) rest with
        | .error e => .error e
        | .ok (vs, rest2) => .ok (.arr vs, rest2)
      else .error "invalid len"
  | .struct _ fields, data =>
    match build_value_fields [] fields data with
    | .error e => .error e
    | .ok (obj, rest) => .ok (.obj obj, rest)
/-- The field loop of `build_value`'s struct arm: left-to-right inserts into
the (BTreeMap-backed) object accumulator. -/
def build_value_fields (acc : List (String × JValue)) :
    List (String × TypeSchema) → List (List Nat) →
    Except String (List (String × JValue) × List (List Nat))
  | [], data => .ok (acc, data)
  | (fn, fty) :: fs, data =>
    match build_value fty data with
    | .error e => .error e
    | .ok (v, rest) => build_value_fields (mapInsert fn v acc) fs rest
end

/-- `UIField` from `parser.rs`. -/
structure UIField where
  name : String
  value : String
  deriving Repr, DecidableEq

/-- The primitive-leaf body of `build_ui_fields`, producing the display
string for the one popped buffer `raw`. -/
def build_prim_ui (nm : String) (sz : Option Nat) (raw : List Nat) :
    Except String String :=
  match nm with
  | "bool" =>
    match raw with
    | [] => .error "panic: index out of bounds"
    | b :: _ => .ok (if b = 1 then "true" else "false")
  | "int" =>
    if (match sz with | some s => decide (s < raw.length) | none => false) then
      .error "invalid len"
    else if raw.length ≤ 16 then
      match parse_i128_raw raw with
      | .error e => .error e
      | .ok v => .ok (toString v)
    else
      match parse_i256_raw raw with
      | .error e => .error e
      | .ok v => .ok (toString v)
  | "uint" =>
    if (match sz with | some s => decide (s < raw.length) | none => false) then
      .error "invalid len"
    else if raw.length ≤ 16 then
      match parse_u128 raw with
      | .error e => .error e
      | .ok v => .ok (toString v)
    else
      match parse_u256 raw with
      | .error e => .error e
      | .ok v => .ok (toString v)
  | "bytes" =>
    if (match sz with | some s => decide (raw.length ≠ s) | none => false) then
      .error "invalid len"
    else .ok ("0x" ++ hexEncode raw)
  | "string" =>
    match parse_utf8_string raw with
    | .error e => .error e
    | .ok s => .ok s
  | "address" =>
    if raw.length ≠ 20 then .error "invalid len"
    else .ok ("0x" ++ hexEncode raw)
  | _ => .error "panic: unreachable"

mutual
/-- `build_ui_fields` (`parser.rs`): same traversal and stream consumption,
flattened to an ordered list of `(field name, display string)` pairs; array
elements repeat the item's own field name. -/
def build_ui_fields : TypeSchema → List (List Nat) → String →
    Except String (List UIField × List (List Nat))
  | .primitive nm sz, data, field_name =>
    match data with
    | [] => .error "invalid"
    | raw :: rest =>
      match build_prim_ui nm sz raw with
      | .error e => .error e
      | .ok v => .ok ([⟨field_name, v⟩], rest)
  | .array item, data, field_name =>
    match data with
    | [] => .error "invalid"
    | lenv :: rest =>
      if lenv.length = 1 then
        match popSeq (fun d => build_ui_fields item d field_name) (lenv.headD 0) rest with
        | .error e => .error e
        | .ok (vss, rest2) => .ok (vss.flatten, rest2)
      else .error "invalid len"
  | .struct _ fields, data, _ => build_ui_fields_list fields data
/-- The field loop of `build_ui_fields`'s struct arm: each field decoded
under its own name, results concatenated. -/
def build_ui_fields_list : List (String × TypeSchema) → List (List Nat) →
    Except String (List UIField × List (List Nat))
  | [], data => .ok ([], data)
  | (fn, fty) :: fs, data =>
    match build_ui_fields fty data fn with
    | .error e => .error e
    | .ok (ufs, rest) =>
      match build_ui_fields_list fs rest with
      | .error e => .error e
      | .ok (tail, rest2) => .ok (ufs ++ tail, rest2)
end

end Eip712

namespace Eip712

/-! ## Shared concrete examples -/

/-- A concrete stand-in for the external keccak256 collaborator, used to
evaluate the encoder on concrete inputs (32 bytes, last one the input
length). -/
def keccakStub : List Nat → List Nat := fun l => List.replicate 31 0 ++ [l.length % 256]

/-- The `{Person, Mail}` scenario registry (keys in `BTreeMap` order). -/
def mailDefs : Eip712StructDefinitions :=
  [("Mail", [⟨.custom "Person", "from", []⟩, ⟨.custom "Person", "to", []⟩,
             ⟨.string, "contents", []⟩]),
   ("Person", [⟨.string, "name", []⟩, ⟨.address, "wallets", [.dynamic]⟩])]

/-- A one-field registry used to exercise the signing-hash pipeline. -/
def boolDefs : Eip712StructDefinitions := [("T", [⟨.bool, "x", []⟩])]

/-! ## C4 -/

/-- C4: a dynamic-array node whose length marker is the single byte `0`
encodes to `keccak256` of the empty byte string and consumes nothing further;
no length error is possible in the zero-element case. -/
theorem zero_length_array_hashes_empty (k : List Nat → List Nat)
    (struct_types : List (String × String)) (item : TypeSchema)
    (rest : List (List Nat)) :
    encode_data k struct_types (.array item) ([0] :: rest) = .ok (k [], rest) := rfl

/-! ## C10 -/

/-- C10: every bool leaf reads the first byte of the popped buffer with no
bounds check: an empty buffer is an out-of-bounds panic (modelled as the
distinguished `"panic: ..."` error, not a returned `Err`) in the encoder and
in both decoders, and for a non-empty buffer the value is true exactly when
the first byte equals 1, with any later bytes ignored. -/
theorem bool_leaf_first_byte_no_bounds_check :
    (∀ (k : List Nat → List Nat) (st : List (String × String)) (sz : Option Nat)
        (rest : List (List Nat)),
      encode_data k st (.primitive "bool" sz) ([] :: rest) =
        .error "panic: index out of bounds") ∧
    (∀ (k : List Nat → List Nat) (st : List (String × String)) (sz : Option Nat)
        (b : Nat) (bs : List Nat) (rest : List (List Nat)),
      encode_data k st (.primitive "bool" sz) ((b :: bs) :: rest) =
        .ok (abiWordOfNat (if b = 1 then 1 else 0), rest)) ∧
    (∀ (sz : Option Nat) (rest : List (List Nat)),
      build_value (.primitive "bool" sz) ([] :: rest) =
        .error "panic: index out of bounds") ∧
    (∀ (sz : Option Nat) (b : Nat) (bs : List Nat) (rest : List (List Nat)),
      build_value (.primitive "bool" sz) ((b :: bs) :: rest) =
        .ok (.bool (decide (b = 1)), rest)) ∧
    (∀ (sz : Option Nat) (fname : String) (rest : List (List Nat)),
      build_ui_fields (.primitive "bool" sz) ([] :: rest) fname =
        .error "panic: index out of bounds") ∧
    (∀ (sz : Option Nat) (fname : String) (b : Nat) (bs : List Nat)
        (rest : List (List Nat)),
      build_ui_fields (.primitive "bool" sz) ((b :: bs) :: rest) fname =
        .ok ([⟨fname, if b = 1 then "true" else "false"⟩], rest)) :=
  ⟨fun _ _ _ _ => rfl, fun _ _ _ _ _ _ => rfl, fun _ _ => rfl, fun _ _ _ _ => rfl,
   fun _ _ _ => rfl, fun _ _ _ _ _ => rfl⟩

/-! ## C8 -/

/-- C8: decoding `05 04 6e 61 6d 65` yields the `string` field named
`"name"` with no array levels; further vectors exercise the descriptor bits
(bit 7 array with level list, bit 6 explicit size) and each kind id
(0 Custom, 1 Int, 2 Uint, 3 Address, 4 Bool, 5 String, 6 FixedBytes,
7 DynamicBytes), each read left-to-right with a trailing length-prefixed
UTF-8 name. -/
theorem field_definition_decode_scenario :
    from_bytes [0x05, 0x04, 0x6e, 0x61, 0x6d, 0x65] = .ok ⟨.string, "name", []⟩ ∧
    from_bytes (0x42 :: 0x20 :: 0x07 :: strBytes "chainId") =
      .ok ⟨.uint 32, "chainId", []⟩ ∧
    from_bytes (0x41 :: 0x20 :: 0x06 :: strBytes "int256") =
      .ok ⟨.int 32, "int256", []⟩ ∧
    from_bytes ([0x84, 0x02, 0x00, 0x01, 0x02, 0x0f] ++ strBytes "bool_arr2_fixed") =
      .ok ⟨.bool, "bool_arr2_fixed", [.dynamic, .fixed 2]⟩ ∧
    from_bytes (0x00 :: 0x06 :: (strBytes "Person" ++ 0x04 :: strBytes "from")) =
      .ok ⟨.custom "Person", "from", []⟩ ∧
    from_bytes (0x03 :: 0x11 :: strBytes "verifyingContract") =
      .ok ⟨.address, "verifyingContract", []⟩ ∧
    from_bytes (0x04 :: 0x04 :: strBytes "bool") = .ok ⟨.bool, "bool", []⟩ ∧
    from_bytes (0x07 :: 0x05 :: strBytes "bytes") =
      .ok ⟨.dynamicBytes, "bytes", []⟩ ∧
    from_bytes (0x46 :: 0x01 :: 0x06 :: strBytes "bytes1") =
      .ok ⟨.fixedBytes 1, "bytes1", []⟩ := by
  refine ⟨?_, ?_, ?_, ?_, ?_, ?_, ?_, ?_, ?_⟩ <;> decide

/-! ## C5 -/

/-- C5 counterexample: the encoder accepts a 2-byte buffer at a uint leaf
whose declared byte size is 1 (it returns the ABI word of 0x0102 instead of a
length-mismatch error). -/
theorem uint_oversize_accepted_by_encoder :
    encode_data keccakStub [] (.primitive "uint" (some 1)) [[0x01, 0x02]] =
      .ok (abiWordOfNat 0x0102, []) := by decide

/-- C5 (amended): the encoder never compares a uint buffer against the
declared size: any buffer of at most 32 bytes is accepted and only buffers
longer than 32 bytes are rejected (by the 256-bit parse); an int buffer
longer than its declared size is rejected; the uint declared-size check
exists only in the decoders `build_value` and `build_ui_fields`. -/
theorem uint_length_check_amended :
    (∀ (k : List Nat → List Nat) (st : List (String × String)) (s : Nat)
        (raw : List Nat) (rest : List (List Nat)), raw.length ≤ 32 →
      ∃ w, encode_data k st (.primitive "uint" (some s)) (raw :: rest) = .ok (w, rest)) ∧
    (∀ (k : List Nat → List Nat) (st : List (String × String)) (s : Nat)
        (raw : List Nat) (rest : List (List Nat)), 32 < raw.length →
      encode_data k st (.primitive "uint" (some s)) (raw :: rest) =
        .error "u256 len should be <= 32") ∧
    (∀ (k : List Nat → List Nat) (st : List (String × String)) (s : Nat)
        (raw : List Nat) (rest : List (List Nat)), s < raw.length →
      ∃ e, encode_data k st (.primitive "int" (some s)) (raw :: rest) = .error e ∧
        (e = "i128 len should be <= 16" ∨ e = "i256 len should be <= 32")) ∧
    (∀ (s : Nat) (raw : List Nat) (rest : List (List Nat)), s < raw.length →
      build_value (.primitive "uint" (some s)) (raw :: rest) = .error "invalid len") ∧
    (∀ (s : Nat) (raw : List Nat) (rest : List (List Nat)) (fname : String),
        s < raw.length →
      build_ui_fields (.primitive "uint" (some s)) (raw :: rest) fname =
        .error "invalid len") := by
  refine ⟨?_, ?_, ?_, ?_, ?_⟩
  · intro k st s raw rest hle
    by_cases h16 : raw.length ≤ 16
    · refine ⟨abiWordOfNat (beNat (List.replicate (16 - raw.length) 0 ++ raw)), ?_⟩
      simp [encode_data, encode_prim, parse_u128, h16, Nat.not_lt.mpr h16]
    · refine ⟨abiWordOfNat (beNat (List.replicate (32 - raw.length) 0 ++ raw)), ?_⟩
      simp only [encode_data, encode_prim, h16, if_false]
      simp [parse_u256, Nat.not_lt.mpr hle]
  · intro k st s raw rest hgt
    have h16 : ¬ raw.length ≤ 16 := by omega
    simp only [encode_data, encode_prim, h16, if_false]
    simp [parse_u256, hgt]
  · intro k st s raw rest hlen
    by_cases h : raw.length ≤ 16 ∧ s ≤ 16
    · refine ⟨"i128 len should be <= 16", ?_, Or.inl rfl⟩
      simp [encode_data, encode_prim, h, parse_i128, hlen]
    · refine ⟨"i256 len should be <= 32", ?_, Or.inr rfl⟩
      simp [encode_data, encode_prim, h, parse_i256, hlen]
  · intro s raw rest hlen
    simp [build_value, build_prim_value, hlen]
  · intro s raw rest fname hlen
    simp [build_ui_fields, build_prim_ui, hlen]

/-- Witness for the amended C5 theorem at concrete inputs. -/
theorem uint_length_check_amended_witness :
    (∃ w, encode_data keccakStub [] (.primitive "uint" (some 1)) [[0x01, 0x02]] =
        .ok (w, [])) ∧
    build_value (.primitive "uint" (some 1)) [[0x01, 0x02]] = .error "invalid len" ∧
    build_ui_fields (.primitive "uint" (some 1)) [[0x01, 0x02]] "x" =
      .error "invalid len" :=
  ⟨uint_length_check_amended.1 keccakStub [] 1 [0x01, 0x02] [] (by decide),
   uint_length_check_amended.2.2.2.1 1 [0x01, 0x02] [] (by decide),
   uint_length_check_amended.2.2.2.2 1 [0x01, 0x02] [] "x" (by decide)⟩

end Eip712

namespace Eip712

/-! ## C6 -/

/-- Helper for C6: a successful `popSeq` run collects exactly `n` results. -/
theorem popSeq_length {α : Type}
    (f : List (List Nat) → Except String (α × List (List Nat))) :
    ∀ (n : Nat) (data : List (List Nat)) (vs : List α) (rest : List (List Nat)),
      popSeq f n data = .ok (vs, rest) → vs.length = n := by
  intro n
  induction n with
  | zero => intro data vs rest h; simp [popSeq] at h; simp [h.1]
  | succ m ih =>
    intro data vs rest h
    cases hf : f data with
    | error e => simp [popSeq, hf] at h
    | ok p =>
      obtain ⟨v, r⟩ := p
      cases hs : popSeq f m r with
      | error e => simp [popSeq, hf, hs] at h
      | ok q =>
        obtain ⟨vs0, rest0⟩ := q
        simp [popSeq, hf, hs] at h
        obtain ⟨hv, -⟩ := h
        simp [← hv, ih r vs0 rest0 hs]

/-- C6: an array node pops exactly one buffer as the element-count marker; a
marker that is not exactly one byte is a length error; a one-byte marker `n`
makes the node encode exactly `n` elements (struct-typed elements wrapped
with `hash_struct`) and hash the concatenation. -/
theorem array_node_marker_and_elements :
    (∀ (k : List Nat → List Nat) (st : List (String × String)) (item : TypeSchema),
      encode_data k st (.array item) [] = .error "build value data.next failed") ∧
    (∀ (k : List Nat → List Nat) (st : List (String × String)) (item : TypeSchema)
        (lenv : List Nat) (rest : List (List Nat)), lenv.length ≠ 1 →
      encode_data k st (.array item) (lenv :: rest) = .error "invalid array size len") ∧
    (∀ (k : List Nat → List Nat) (st : List (String × String)) (item : TypeSchema)
        (n : Nat) (rest : List (List Nat)),
      encode_data k st (.array item) ([n] :: rest) =
        match popSeq (fun d =>
            match encode_data k st item d with
            | .error e => .error e
            | .ok (v, r) =>
              match wrapIfStruct k st item v with
              | .error e => .error e
              | .ok v2 => .ok (v2, r)) n rest with
        | .error e => .error e
        | .ok (vs, rest2) => .ok (k vs.flatten, rest2)) ∧
    (∀ (f : List (List Nat) → Except String (List Nat × List (List Nat)))
        (n : Nat) (data : List (List Nat)) (vs : List (List Nat))
        (rest : List (List Nat)),
      popSeq f n data = .ok (vs, rest) → vs.length = n) := by
  refine ⟨fun _ _ _ => rfl, ?_, fun _ _ _ _ _ => rfl, fun f => popSeq_length f⟩
  intro k st item lenv rest hne
  simp [encode_data, hne]

/-- Witness for C6 at concrete inputs: a two-byte marker is rejected, and a
marker byte 2 collects exactly two elements. -/
theorem array_node_marker_and_elements_witness :
    encode_data keccakStub [] (.array (.primitive "bool" none)) [[1, 2]] =
      .error "invalid array size len" ∧
    (List.length [abiWordOfNat 1, abiWordOfNat 0] = 2) :=
  ⟨array_node_marker_and_elements.2.1 keccakStub [] (.primitive "bool" none)
      [1, 2] [] (by decide),
   array_node_marker_and_elements.2.2.2
      (fun d => encode_data keccakStub [] (.primitive "bool" none) d) 2 [[1], [5]]
      [abiWordOfNat 1, abiWordOfNat 0] [] (by decide)⟩

/-! ## C1 -/

/-- C1: whenever the signing hash succeeds, it is
`keccak256(0x19 ‖ 0x01 ‖ domainSeparator ‖ hashStruct(primaryTypeString, encodedData))`
with `hashStruct(t, d) = keccak256(keccak256(t) ‖ d)` and `encodedData` the
schema-driven encoding of the primary type. -/
theorem signing_hash_assembly (k : List Nat → List Nat)
    (struct_defs : Eip712StructDefinitions) (data : List (List Nat))
    (primary_type : String) (domain_separator : List Nat) (fuel : Nat)
    (h : List Nat)
    (hok : eip712_signing_hash k struct_defs data primary_type domain_separator fuel
      = .ok h) :
    ∃ struct_types schema type_str encoded rest,
      encode_all_struct_type struct_defs fuel = .ok struct_types ∧
      build_schema struct_defs fuel primary_type = .ok schema ∧
      lookupStr struct_types primary_type = some type_str ∧
      encode_data k struct_types schema data = .ok (encoded, rest) ∧
      h = k (0x19 :: 0x01 ::
        (domain_separator ++ k (k (strBytes type_str) ++ encoded))) := by
  cases h1 : encode_all_struct_type struct_defs fuel with
  | error e => simp [eip712_signing_hash, h1] at hok
  | ok struct_types =>
    cases h2 : build_schema struct_defs fuel primary_type with
    | error e => simp [eip712_signing_hash, h1, h2] at hok
    | ok schema =>
      cases h3 : lookupStr struct_types primary_type with
      | none => simp [eip712_signing_hash, h1, h2, h3] at hok
      | some type_str =>
        cases h4 : encode_data k struct_types schema data with
        | error e => simp [eip712_signing_hash, h1, h2, h3, h4] at hok
        | ok p =>
          obtain ⟨encoded, rest⟩ := p
          simp only [eip712_signing_hash, h1, h2, h3, h4] at hok
          simp at hok
          exact ⟨struct_types, schema, type_str, encoded, rest, rfl, rfl, h3, h4,
            hok.symm⟩

/-- Witness for C1: the pipeline run on a one-bool-field registry. -/
theorem signing_hash_assembly_witness :
    ∃ struct_types schema type_str encoded rest,
      encode_all_struct_type boolDefs 2 = .ok struct_types ∧
      build_schema boolDefs 2 "T" = .ok schema ∧
      lookupStr struct_types "T" = some type_str ∧
      encode_data keccakStub struct_types schema [[1]] = .ok (encoded, rest) ∧
      keccakStub (0x19 :: 0x01 :: (List.replicate 32 0 ++
          hash_struct keccakStub "T(bool x)" (abiWordOfNat 1))) =
        keccakStub (0x19 :: 0x01 :: (List.replicate 32 0 ++
          keccakStub (keccakStub (strBytes type_str) ++ encoded))) :=
  signing_hash_assembly keccakStub boolDefs [[1]] "T" (List.replicate 32 0) 2
    (keccakStub (0x19 :: 0x01 :: (List.replicate 32 0 ++
      hash_struct keccakStub "T(bool x)" (abiWordOfNat 1)))) (by decide)

end Eip712

namespace Eip712

/-! ## C7 -/

/-- The element body of `encode_data`'s array loop (encode one element, then
wrap struct results), named so the extension lemmas can state it once. -/
def encodeElem (k : List Nat → List Nat) (st : List (String × String))
    (item : TypeSchema) (d : List (List Nat)) :
    Except String (List Nat × List (List Nat)) :=
  match encode_data k st item d with
  | .error e => .error e
  | .ok (v, r) =>
    match wrapIfStruct k st item v with
    | .error e => .error e
    | .ok v2 => .ok (v2, r)

/-- The array arm of `encode_data`, restated through `encodeElem`. -/
theorem encode_data_array_eq (k : List Nat → List Nat)
    (st : List (String × String)) (item : TypeSchema) (lenv : List Nat)
    (rest : List (List Nat)) (hl : lenv.length = 1) :
    encode_data k st (.array item) (lenv :: rest) =
      match popSeq (encodeElem k st item) (lenv.headD 0) rest with
      | .error e => .error e
      | .ok (vs, rest2) => .ok (k vs.flatten, rest2) := by
  simp only [encode_data, encodeElem]
  rw [if_pos hl]
  rfl

/-- Helper for C7: extending the stream under the pop-and-collect loop. -/
theorem popSeq_extend {α : Type}
    (f : List (List Nat) → Except String (α × List (List Nat)))
    (extra : List (List Nat))
    (hf : ∀ d v r, f d = .ok (v, r) → f (d ++ extra) = .ok (v, r ++ extra)) :
    ∀ (n : Nat) (data : List (List Nat)) (vs : List α) (rest : List (List Nat)),
      popSeq f n data = .ok (vs, rest) →
      popSeq f n (data ++ extra) = .ok (vs, rest ++ extra) := by
  intro n
  induction n with
  | zero =>
    intro data vs rest h
    simp [popSeq] at h ⊢
    exact ⟨h.1, by rw [← h.2]⟩
  | succ m ih =>
    intro data vs rest h
    cases hfd : f data with
    | error e => simp [popSeq, hfd] at h
    | ok p =>
      obtain ⟨v, r⟩ := p
      cases hs : popSeq f m r with
      | error e => simp [popSeq, hfd, hs] at h
      | ok q =>
        obtain ⟨vs0, rest0⟩ := q
        simp [popSeq, hfd, hs] at h
        obtain ⟨hv, hr⟩ := h
        simp [popSeq, hf data v r hfd, ih r vs0 rest0 hs, ← hv, ← hr]

mutual
/-- Helper for C7: unread trailing stream elements never affect a successful
`encode_data` run. -/
theorem encode_data_extend (k : List Nat → List Nat) (st : List (String × String))
    (extra : List (List Nat)) :
    ∀ (s : TypeSchema) (data : List (List Nat)) (v : List Nat)
      (r : List (List Nat)),
      encode_data k st s data = .ok (v, r) →
      encode_data k st s (data ++ extra) = .ok (v, r ++ extra)
  | .primitive nm sz, data, v, r, hok => by
    cases data with
    | nil => simp [encode_data] at hok
    | cons raw rest =>
      cases hp : encode_prim k nm sz raw with
      | error e => simp [encode_data, hp] at hok
      | ok w =>
        simp [encode_data, hp] at hok ⊢
        exact ⟨hok.1, by rw [← hok.2]⟩
  | .array item, data, v, r, hok => by
    cases data with
    | nil => simp [encode_data] at hok
    | cons lenv rest =>
      by_cases hl : lenv.length = 1
      · have hf : ∀ (d : List (List Nat)) (v' : List Nat) (r' : List (List Nat)),
            encodeElem k st item d = .ok (v', r') →
            encodeElem k st item (d ++ extra) = .ok (v', r' ++ extra) := by
          intro d v' r' hd
          cases he : encode_data k st item d with
          | error e => simp [encodeElem, he] at hd
          | ok p =>
            obtain ⟨v1, r1⟩ := p
            cases hw : wrapIfStruct k st item v1 with
            | error e => simp [encodeElem, he, hw] at hd
            | ok v2 =>
              simp [encodeElem, he, hw] at hd
              simp [encodeElem, encode_data_extend k st extra item d v1 r1 he, hw,
                ← hd.1, ← hd.2]
        rw [encode_data_array_eq k st item lenv rest hl] at hok
        rw [show (lenv :: rest) ++ extra = lenv :: (rest ++ extra) from rfl]
        rw [encode_data_array_eq k st item lenv (rest ++ extra) hl]
        cases hps : popSeq (encodeElem k st item) (lenv.headD 0) rest with
        | error e => rw [hps] at hok; simp at hok
        | ok q =>
          obtain ⟨vs, rest2⟩ := q
          rw [hps] at hok
          simp at hok
          rw [popSeq_extend (encodeElem k st item) extra hf (lenv.headD 0) rest vs
            rest2 hps]
          simp [← hok.1, ← hok.2]
      · simp [encode_data, hl] at hok
  | .struct nm fields, data, v, r, hok => by
    simp only [encode_data] at hok ⊢
    exact encode_fields_extend k st extra fields data v r hok
/-- Helper for C7: the struct-field loop of `encode_data`. -/
theorem encode_fields_extend (k : List Nat → List Nat) (st : List (String × String))
    (extra : List (List Nat)) :
    ∀ (fs : List (String × TypeSchema)) (data : List (List Nat)) (v : List Nat)
      (r : List (List Nat)),
      encode_fields k st fs data = .ok (v, r) →
      encode_fields k st fs (data ++ extra) = .ok (v, r ++ extra)
  | [], data, v, r, hok => by
    simp [encode_fields] at hok ⊢
    exact ⟨hok.1, by rw [← hok.2]⟩
  | (fn, fty) :: fs, data, v, r, hok => by
    cases he : encode_data k st fty data with
    | error e => simp [encode_fields, he] at hok
    | ok p =>
      obtain ⟨v1, r1⟩ := p
      cases hw : wrapIfStruct k st fty v1 with
      | error e => simp [encode_fields, he, hw] at hok
      | ok v2 =>
        cases ht : encode_fields k st fs r1 with
        | error e => simp [encode_fields, he, hw, ht] at hok
        | ok q =>
          obtain ⟨tl, r2⟩ := q
          simp [encode_fields, he, hw, ht] at hok
          have he2 := encode_data_extend k st extra fty data v1 r1 he
          have ht2 := encode_fields_extend k st extra fs r1 tl r2 ht
          simp [encode_fields, he2, hw, ht2, ← hok.1, ← hok.2]
end

/-- The array arm of `build_value`, restated for a valid one-byte marker. -/
theorem build_value_array_eq (item : TypeSchema) (lenv : List Nat)
    (rest : List (List Nat)) (hl : lenv.length = 1) :
    build_value (.array item) (lenv :: rest) =
      match popSeq (fun d => build_value item d) (lenv.headD 0) rest with
      | .error e => .error e
      | .ok (vs, rest2) => .ok (.arr vs, rest2) := by
  simp only [build_value]
  rw [if_pos hl]

mutual
/-- Helper for C7: unread trailing stream elements never affect a successful
`build_value` run. -/
theorem build_value_extend (extra : List (List Nat)) :
    ∀ (s : TypeSchema) (data : List (List Nat)) (v : JValue)
      (r : List (List Nat)),
      build_value s data = .ok (v, r) →
      build_value s (data ++ extra) = .ok (v, r ++ extra)
  | .primitive nm sz, data, v, r, hok => by
    cases data with
    | nil => simp [build_value] at hok
    | cons raw rest =>
      cases hp : build_prim_value nm sz raw with
      | error e => simp [build_value, hp] at hok
      | ok w =>
        simp [build_value, hp] at hok ⊢
        exact ⟨hok.1, by rw [← hok.2]⟩
  | .array item, data, v, r, hok => by
    cases data with
    | nil => simp [build_value] at hok
    | cons lenv rest =>
      by_cases hl : lenv.length = 1
      · rw [build_value_array_eq item lenv rest hl] at hok
        rw [show (lenv :: rest) ++ extra = lenv :: (rest ++ extra) from rfl]
        rw [build_value_array_eq item lenv (rest ++ extra) hl]
        cases hps : popSeq (fun d => build_value item d) (lenv.headD 0) rest with
        | error e => rw [hps] at hok; simp at hok
        | ok q =>
          obtain ⟨vs, rest2⟩ := q
          rw [hps] at hok
          simp at hok
          rw [popSeq_extend (fun d => build_value item d) extra
            (fun d v' r' hd => build_value_extend extra item d v' r' hd)
            (lenv.headD 0) rest vs rest2 hps]
          simp [← hok.1, ← hok.2]
      · simp [build_value, hl] at hok
  | .struct nm fields, data, v, r, hok => by
    cases hbf : build_value_fields [] fields data with
    | error e => simp [build_value, hbf] at hok
    | ok q =>
      obtain ⟨obj, rest2⟩ := q
      simp [build_value, hbf] at hok
      have hext := build_value_fields_extend extra fields [] data obj rest2 hbf
      simp [build_value, hext, ← hok.1, ← hok.2]
/-- Helper for C7: the struct-field loop of `build_value`. -/
theorem build_value_fields_extend (extra : List (List Nat)) :
    ∀ (fs : List (String × TypeSchema)) (acc : List (String × JValue))
      (data : List (List Nat)) (obj : List (String × JValue))
      (r : List (List Nat)),
      build_value_fields acc fs data = .ok (obj, r) →
      build_value_fields acc fs (data ++ extra) = .ok (obj, r ++ extra)
  | [], acc, data, obj, r, hok => by
    simp [build_value_fields] at hok ⊢
    exact ⟨hok.1, by rw [← hok.2]⟩
  | (fn, fty) :: fs, acc, data, obj, r, hok => by
    cases he : build_value fty data with
    | error e => simp [build_value_fields, he] at hok
    | ok p =>
      obtain ⟨v1, r1⟩ := p
      simp only [build_value_fields] at hok
      rw [he] at hok
      simp only [] at hok
      have he2 := build_value_extend extra fty data v1 r1 he
      have ht2 := build_value_fields_extend extra fs (mapInsert fn v1 acc) r1 obj r hok
      simp [build_value_fields, he2, ht2]
end

/-- The array arm of `build_ui_fields`, restated for a valid one-byte marker. -/
theorem build_ui_fields_array_eq (item : TypeSchema) (lenv : List Nat)
    (rest : List (List Nat)) (fname : String) (hl : lenv.length = 1) :
    build_ui_fields (.array item) (lenv :: rest) fname =
      match popSeq (fun d => build_ui_fields item d fname) (lenv.headD 0) rest with
      | .error e => .error e
      | .ok (vss, rest2) => .ok (vss.flatten, rest2) := by
  simp only [build_ui_fields]
  rw [if_pos hl]

mutual
/-- Helper for C7: unread trailing stream elements never affect a successful
`build_ui_fields` run. -/
theorem build_ui_fields_extend (extra : List (List Nat)) :
    ∀ (s : TypeSchema) (data : List (List Nat)) (fname : String)
      (v : List UIField) (r : List (List Nat)),
      build_ui_fields s data fname = .ok (v, r) →
      build_ui_fields s (data ++ extra) fname = .ok (v, r ++ extra)
  | .primitive nm sz, data, fname, v, r, hok => by
    cases data with
    | nil => simp [build_ui_fields] at hok
    | cons raw rest =>
      cases hp : build_prim_ui nm sz raw with
      | error e => simp [build_ui_fields, hp] at hok
      | ok w =>
        simp [build_ui_fields, hp] at hok ⊢
        exact ⟨hok.1, by rw [← hok.2]⟩
  | .array item, data, fname, v, r, hok => by
    cases data with
    | nil => simp [build_ui_fields] at hok
    | cons lenv rest =>
      by_cases hl : lenv.length = 1
      · rw [build_ui_fields_array_eq item lenv rest fname hl] at hok
        rw [show (lenv :: rest) ++ extra = lenv :: (rest ++ extra) from rfl]
        rw [build_ui_fields_array_eq item lenv (rest ++ extra) fname hl]
        cases hps : popSeq (fun d => build_ui_fields item d fname) (lenv.headD 0) rest with
        | error e => rw [hps] at hok; simp at hok
        | ok q =>
          obtain ⟨vs, rest2⟩ := q
          rw [hps] at hok
          simp at hok
          rw [popSeq_extend (fun d => build_ui_fields item d fname) extra
            (fun d v' r' hd => build_ui_fields_extend extra item d fname v' r' hd)
            (lenv.headD 0) rest vs rest2 hps]
          simp [← hok.1, ← hok.2]
      · simp [build_ui_fields, hl] at hok
  | .struct nm fields, data, fname, v, r, hok => by
    simp only [build_ui_fields] at hok ⊢
    exact build_ui_fields_list_extend extra fields data v r hok
/-- Helper for C7: the struct-field loop of `build_ui_fields`. -/
theorem build_ui_fields_list_extend (extra : List (List Nat)) :
    ∀ (fs : List (String × TypeSchema)) (data : List (List Nat))
      (v : List UIField) (r : List (List Nat)),
      build_ui_fields_list fs data = .ok (v, r) →
      build_ui_fields_list fs (data ++ extra) = .ok (v, r ++ extra)
  | [], data, v, r, hok => by
    simp [build_ui_fields_list] at hok ⊢
    exact ⟨hok.1, by rw [← hok.2]⟩
  | (fn, fty) :: fs, data, v, r, hok => by
    cases he : build_ui_fields fty data fn with
    | error e => simp [build_ui_fields_list, he] at hok
    | ok p =>
      obtain ⟨v1, r1⟩ := p
      cases ht : build_ui_fields_list fs r1 with
      | error e => simp [build_ui_fields_list, he, ht] at hok
      | ok q =>
        obtain ⟨tl, r2⟩ := q
        simp [build_ui_fields_list, he, ht] at hok
        have he2 := build_ui_fields_extend extra fty data fn v1 r1 he
        have ht2 := build_ui_fields_list_extend extra fs r1 tl r2 ht
        simp [build_ui_fields_list, he2, ht2, ← hok.1, ← hok.2]
end

/-- C7: an exhausted stream at a primitive leaf or array-length marker makes
the encoder and both decoders return an error (never a partial result), and
unread stream elements left over after a successful traversal never cause a
failure (a successful run is preserved unchanged under any stream
extension, the extras left unread). -/
theorem stream_exhaustion_and_unread_extras :
    (∀ (k : List Nat → List Nat) (st : List (String × String)) (nm : String)
        (sz : Option Nat),
      encode_data k st (.primitive nm sz) [] = .error "build value data.next failed") ∧
    (∀ (k : List Nat → List Nat) (st : List (String × String)) (item : TypeSchema),
      encode_data k st (.array item) [] = .error "build value data.next failed") ∧
    (∀ (nm : String) (sz : Option Nat),
      build_value (.primitive nm sz) [] = .error "invalid") ∧
    (∀ (item : TypeSchema), build_value (.array item) [] = .error "invalid") ∧
    (∀ (nm : String) (sz : Option Nat) (fname : String),
      build_ui_fields (.primitive nm sz) [] fname = .error "invalid") ∧
    (∀ (item : TypeSchema) (fname : String),
      build_ui_fields (.array item) [] fname = .error "invalid") ∧
    (∀ (k : List Nat → List Nat) (st : List (String × String)) (s : TypeSchema)
        (data extra : List (List Nat)) (v : List Nat) (r : List (List Nat)),
      encode_data k st s data = .ok (v, r) →
      encode_data k st s (data ++ extra) = .ok (v, r ++ extra)) ∧
    (∀ (s : TypeSchema) (data extra : List (List Nat)) (v : JValue)
        (r : List (List Nat)),
      build_value s data = .ok (v, r) →
      build_value s (data ++ extra) = .ok (v, r ++ extra)) ∧
    (∀ (s : TypeSchema) (data extra : List (List Nat)) (fname : String)
        (v : List UIField) (r : List (List Nat)),
      build_ui_fields s data fname = .ok (v, r) →
      build_ui_fields s (data ++ extra) fname = .ok (v, r ++ extra)) :=
  ⟨fun _ _ _ _ => rfl, fun _ _ _ => rfl, fun _ _ => rfl, fun _ => rfl,
   fun _ _ _ => rfl, fun _ _ => rfl,
   fun k st s data extra v r h => encode_data_extend k st extra s data v r h,
   fun s data extra v r h => build_value_extend extra s data v r h,
   fun s data extra fname v r h => build_ui_fields_extend extra s data fname v r h⟩

/-- Witness for C7: a successful encode run with trailing unread elements. -/
theorem stream_exhaustion_and_unread_extras_witness :
    encode_data keccakStub [] (.primitive "bool" none) ([[1]] ++ [[9, 9]]) =
      .ok (abiWordOfNat 1, [] ++ [[9, 9]]) :=
  stream_exhaustion_and_unread_extras.2.2.2.2.2.2.1 keccakStub []
    (.primitive "bool" none) [[1]] [[9, 9]] (abiWordOfNat 1) [] (by decide)

end Eip712

namespace Eip712

/-! ## C3 -/

/-- Folding `beNat` from an arbitrary accumulator. -/
theorem beNat_foldl_init (b : List Nat) :
    ∀ i : Nat, b.foldl (fun acc x => acc * 256 + x) i = i * 256 ^ b.length + beNat b := by
  induction b with
  | nil => intro i; simp [beNat]
  | cons x xs ih =>
    intro i
    have hx : beNat (x :: xs) = x * 256 ^ xs.length + beNat xs := by
      show List.foldl (fun acc y => acc * 256 + y) (0 * 256 + x) xs = _
      rw [ih (0 * 256 + x)]
      ring_nf
    simp only [List.foldl_cons, List.length_cons, hx]
    rw [ih (i * 256 + x)]
    ring

/-- `beNat` on a head-tail split. -/
theorem beNat_cons (x : Nat) (xs : List Nat) :
    beNat (x :: xs) = x * 256 ^ xs.length + beNat xs := by
  show List.foldl (fun acc y => acc * 256 + y) (0 * 256 + x) xs = _
  rw [beNat_foldl_init xs (0 * 256 + x)]
  ring_nf

/-- `beNat` on concatenation. -/
theorem beNat_append (a b : List Nat) :
    beNat (a ++ b) = beNat a * 256 ^ b.length + beNat b := by
  show List.foldl _ 0 (a ++ b) = _
  rw [List.foldl_append]
  exact beNat_foldl_init b (beNat a)

/-- Leading zero bytes do not change the value. -/
theorem beNat_replicate_zero (n : Nat) : beNat (List.replicate n 0) = 0 := by
  induction n with
  | zero => rfl
  | succ m ih => rw [List.replicate_succ, beNat_cons, ih]; simp

/-- All-ones bytes read as `256 ^ n - 1`. -/
theorem beNat_replicate_ff (n : Nat) : beNat (List.replicate n 0xFF) = 256 ^ n - 1 := by
  induction n with
  | zero => rfl
  | succ m ih =>
    rw [List.replicate_succ, beNat_cons, ih, List.length_replicate]
    have : 1 ≤ 256 ^ m := Nat.one_le_pow m 256 (by norm_num)
    rw [pow_succ]
    omega

/-- Valid byte lists stay below `256 ^ length`. -/
theorem beNat_lt (l : List Nat) (h : ∀ b ∈ l, b < 256) : beNat l < 256 ^ l.length := by
  induction l with
  | nil => simp [beNat]
  | cons x xs ih =>
    rw [beNat_cons, List.length_cons, pow_succ]
    have hx : x < 256 := h x (List.mem_cons_self x xs)
    have hxs : beNat xs < 256 ^ xs.length := ih (fun b hb => h b (List.mem_cons_of_mem x hb))
    calc x * 256 ^ xs.length + beNat xs
        < x * 256 ^ xs.length + 256 ^ xs.length := by omega
      _ = (x + 1) * 256 ^ xs.length := by ring
      _ ≤ 256 * 256 ^ xs.length := by
          have : x + 1 ≤ 256 := hx
          exact Nat.mul_le_mul_right _ this
      _ = 256 ^ xs.length * 256 := by ring

/-- The top bit of a byte is set exactly when the byte is at least 128. -/
theorem land128_ne_zero (p0 : Nat) (hp : p0 < 256) : (p0 &&& 0x80 ≠ 0) ↔ 128 ≤ p0 := by
  have h1 : p0 &&& 0x80 = (p0.testBit 7).toNat * 2 ^ 7 := by
    have := Nat.and_two_pow p0 7
    simpa using this
  rw [h1, Nat.testBit_to_div_mod]
  rcases Nat.lt_or_ge p0 128 with hlt | hge
  · have : p0 / 2 ^ 7 = 0 := Nat.div_eq_of_lt hlt
    simp [this]
    omega
  · have : p0 / 2 ^ 7 = 1 := by
      have h128 : (2 : Nat) ^ 7 = 128 := by norm_num
      rw [h128]
      omega
    simp [this]
    omega

/-- Core of the sign-extension argument: filling a `w`-byte buffer with the
sign byte ahead of the `size`-byte operand reads, in `8 * w`-bit two's
complement, the same value the operand has in `8 * size`-bit two's
complement. -/
theorem twosComp_pad_sign (w size : Nat) (p0 : Nat) (prest : List Nat)
    (hplen : (p0 :: prest).length = size) (hsw : size ≤ w)
    (hpb : ∀ b ∈ p0 :: prest, b < 256) :
    twosComp (8 * w)
        (beNat (List.replicate (w - size) (if p0 &&& 0x80 ≠ 0 then 0xFF else 0x00)
          ++ p0 :: prest))
      = twosComp (8 * size) (beNat (p0 :: prest)) := by
  have h0 : 0 < size := by simp at hplen; omega
  have hprest : prest.length = size - 1 := by simp at hplen; omega
  have hp0 : p0 < 256 := hpb p0 (List.mem_cons_self p0 prest)
  have hN : beNat (p0 :: prest) < 256 ^ size := by
    have := beNat_lt (p0 :: prest) hpb
    rwa [hplen] at this
  have hNc : beNat (p0 :: prest) = p0 * 256 ^ (size - 1) + beNat prest := by
    rw [beNat_cons, hprest]
  have hrest_lt : beNat prest < 256 ^ (size - 1) := by
    have := beNat_lt prest (fun b hb => hpb b (List.mem_cons_of_mem p0 hb))
    rwa [hprest] at this
  have hpow256 : ∀ m : Nat, (256 : Nat) ^ m = 2 ^ (8 * m) := by
    intro m
    rw [show (256 : Nat) = 2 ^ 8 by norm_num, ← pow_mul]
  have hhalf : 128 * 256 ^ (size - 1) = 2 ^ (8 * size - 1) := by
    rw [show (128 : Nat) = 2 ^ 7 by norm_num, hpow256, ← pow_add]
    congr 1
    omega
  have hsw2 : (2 : Nat) ^ (8 * size - 1) ≤ 2 ^ (8 * w - 1) :=
    Nat.pow_le_pow_right (by norm_num) (by omega)
  by_cases hsign : p0 &&& 0x80 ≠ 0
  · -- negative case: sign byte 0xFF
    have hge : 128 ≤ p0 := (land128_ne_zero p0 hp0).mp hsign
    have hNge : 2 ^ (8 * size - 1) ≤ beNat (p0 :: prest) := by
      rw [← hhalf, hNc]
      have : 128 * 256 ^ (size - 1) ≤ p0 * 256 ^ (size - 1) :=
        Nat.mul_le_mul_right _ hge
      omega
    rw [if_pos hsign, beNat_append, beNat_replicate_ff, hplen]
    generalize hNg : beNat (p0 :: prest) = N at hN hNge ⊢
    have hQpos : 0 < (256 : Nat) ^ (w - size) := Nat.pos_pow_of_pos _ (by norm_num)
    have key : (256 ^ (w - size) - 1) * 256 ^ size + N + 256 ^ size
        = 2 ^ (8 * w) + N := by
      have hsub : (256 ^ (w - size) - 1) * 256 ^ size
          = 256 ^ (w - size) * 256 ^ size - 256 ^ size := Nat.sub_one_mul _ _
      have hle : (256 : Nat) ^ size ≤ 256 ^ (w - size) * 256 ^ size :=
        Nat.le_mul_of_pos_left _ hQpos
      have hPQ : (256 : Nat) ^ (w - size) * 256 ^ size = 2 ^ (8 * w) := by
        rw [← pow_add, hpow256]
        congr 1
        omega
      omega
    generalize hMg : (256 ^ (w - size) - 1) * 256 ^ size + N = M at key ⊢
    rw [hpow256 size] at key hN
    have hQ2 : (2 : Nat) ^ (8 * size) = 2 * 2 ^ (8 * size - 1) := by
      have hs1 : 8 * size - 1 + 1 = 8 * size := by omega
      have hp := pow_succ 2 (8 * size - 1)
      rw [hs1] at hp
      rw [hp]
      ring
    have hhalfw : (2 : Nat) ^ (8 * w) = 2 * 2 ^ (8 * w - 1) := by
      have hs1 : 8 * w - 1 + 1 = 8 * w := by omega
      have hp := pow_succ 2 (8 * w - 1)
      rw [hs1] at hp
      rw [hp]
      ring
    unfold twosComp
    rw [if_neg (by omega : ¬ M < 2 ^ (8 * w - 1)),
      if_neg (by omega : ¬ N < 2 ^ (8 * size - 1))]
    have hc1 : ((2 : Int) ^ (8 * w)) = ((2 ^ (8 * w) : Nat) : Int) := by
      push_cast
      ring
    have hc2 : ((2 : Int) ^ (8 * size)) = ((2 ^ (8 * size) : Nat) : Int) := by
      push_cast
      ring
    rw [hc1, hc2]
    omega
  · -- non-negative case: sign byte 0x00
    have hlt : p0 < 128 := by
      rcases Nat.lt_or_ge p0 128 with h | h
      · exact h
      · exact absurd ((land128_ne_zero p0 hp0).mpr h) hsign
    have hNlt : beNat (p0 :: prest) < 2 ^ (8 * size - 1) := by
      rw [← hhalf, hNc]
      have hstep : p0 * 256 ^ (size - 1) + beNat prest <
          (p0 + 1) * 256 ^ (size - 1) := by nlinarith [hrest_lt]
      have : (p0 + 1) * 256 ^ (size - 1) ≤ 128 * 256 ^ (size - 1) :=
        Nat.mul_le_mul_right _ (by omega)
      omega
    rw [if_neg hsign, beNat_append, beNat_replicate_zero]
    simp only [Nat.zero_mul, Nat.zero_add]
    unfold twosComp
    rw [if_pos (lt_of_lt_of_le hNlt hsw2), if_pos hNlt]

end Eip712

namespace Eip712

/-- `parse_i128` computes exactly the two's-complement reading of the raw
bytes at the declared byte size. -/
theorem parse_i128_sign_extends (raw : List Nat) (size : Nat)
    (h0 : 0 < size) (hlen : raw.length ≤ size) (hs : size ≤ 16)
    (hbytes : ∀ b ∈ raw, b < 256) :
    parse_i128 raw size = .ok (twosComp (8 * size) (beNat raw)) := by
  have hnl : ¬ size < raw.length := by omega
  have hplen : (List.replicate (size - raw.length) 0 ++ raw).length = size := by
    simp
    omega
  cases hpad : List.replicate (size - raw.length) 0 ++ raw with
  | nil => rw [hpad] at hplen; simp at hplen; omega
  | cons p0 prest =>
    have hpb : ∀ b ∈ p0 :: prest, b < 256 := by
      rw [← hpad]
      intro b hb
      rcases List.mem_append.mp hb with h | h
      · have := List.eq_of_mem_replicate h
        omega
      · exact hbytes b h
    have hplen2 : (p0 :: prest).length = size := by rw [← hpad]; exact hplen
    have hbeq : beNat (p0 :: prest) = beNat raw := by
      rw [← hpad, beNat_append, beNat_replicate_zero]
      simp
    simp only [parse_i128, hpad]
    rw [if_neg hnl, if_neg (by omega : ¬ 16 < size)]
    rw [show (128 : Nat) = 8 * 16 from rfl,
      twosComp_pad_sign 16 size p0 prest hplen2 hs hpb, hbeq]

/-- `parse_i256` computes exactly the two's-complement reading of the raw
bytes at the declared byte size. -/
theorem parse_i256_sign_extends (raw : List Nat) (size : Nat)
    (h0 : 0 < size) (hlen : raw.length ≤ size) (hs : size ≤ 32)
    (hbytes : ∀ b ∈ raw, b < 256) :
    parse_i256 raw size = .ok (twosComp (8 * size) (beNat raw)) := by
  have hnl : ¬ size < raw.length := by omega
  have hplen : (List.replicate (size - raw.length) 0 ++ raw).length = size := by
    simp
    omega
  cases hpad : List.replicate (size - raw.length) 0 ++ raw with
  | nil => rw [hpad] at hplen; simp at hplen; omega
  | cons p0 prest =>
    have hpb : ∀ b ∈ p0 :: prest, b < 256 := by
      rw [← hpad]
      intro b hb
      rcases List.mem_append.mp hb with h | h
      · have := List.eq_of_mem_replicate h
        omega
      · exact hbytes b h
    have hplen2 : (p0 :: prest).length = size := by rw [← hpad]; exact hplen
    have hbeq : beNat (p0 :: prest) = beNat raw := by
      rw [← hpad, beNat_append, beNat_replicate_zero]
      simp
    simp only [parse_i256, hpad]
    rw [if_neg hnl, if_neg (by omega : ¬ 32 < size)]
    rw [show (256 : Nat) = 8 * 32 from rfl,
      twosComp_pad_sign 32 size p0 prest hplen2 hs hpb, hbeq]

/-- C3: the byte `0x80` at an `Int(1)` leaf encodes as the ABI word of
`-128` while at a `Uint(1)` leaf it encodes as `128`; in general the int
parses sign-extend from the declared byte size (the 128-bit parse is chosen
exactly when both the raw length and the declared size are at most 16
bytes, the 256-bit parse otherwise), and either parse result is emitted as
a 32-byte ABI word. -/
theorem int_leaf_sign_extension :
    (∀ (k : List Nat → List Nat) (st : List (String × String))
        (rest : List (List Nat)),
      encode_data k st (.primitive "int" (some 1)) ([0x80] :: rest) =
        .ok (abiWordOfInt (-128), rest)) ∧
    (∀ (k : List Nat → List Nat) (st : List (String × String))
        (rest : List (List Nat)),
      encode_data k st (.primitive "uint" (some 1)) ([0x80] :: rest) =
        .ok (abiWordOfNat 128, rest)) ∧
    (∀ (raw : List Nat) (size : Nat), 0 < size → raw.length ≤ size → size ≤ 16 →
      (∀ b ∈ raw, b < 256) →
      parse_i128 raw size = .ok (twosComp (8 * size) (beNat raw))) ∧
    (∀ (raw : List Nat) (size : Nat), 0 < size → raw.length ≤ size → size ≤ 32 →
      (∀ b ∈ raw, b < 256) →
      parse_i256 raw size = .ok (twosComp (8 * size) (beNat raw))) ∧
    (∀ (k : List Nat → List Nat) (st : List (String × String)) (size : Nat)
        (raw : List Nat) (rest : List (List Nat)),
      raw.length ≤ 16 → size ≤ 16 →
      encode_data k st (.primitive "int" (some size)) (raw :: rest) =
        match parse_i128 raw size with
        | .error e => .error e
        | .ok v => .ok (abiWordOfInt v, rest)) ∧
    (∀ (k : List Nat → List Nat) (st : List (String × String)) (size : Nat)
        (raw : List Nat) (rest : List (List Nat)),
      ¬ (raw.length ≤ 16 ∧ size ≤ 16) →
      encode_data k st (.primitive "int" (some size)) (raw :: rest) =
        match parse_i256 raw size with
        | .error e => .error e
        | .ok v => .ok (abiWordOfInt v, rest)) ∧
    (∀ v : Int, (abiWordOfInt v).length = 32) ∧
    (∀ n : Nat, (abiWordOfNat n).length = 32) := by
  refine ⟨fun k st rest => rfl, fun k st rest => rfl, parse_i128_sign_extends,
    parse_i256_sign_extends, ?_, ?_, ?_, ?_⟩
  · intro k st size raw rest h1 h2
    simp only [encode_data, encode_prim]
    rw [if_pos ⟨h1, h2⟩]
    cases parse_i128 raw size <;> rfl
  · intro k st size raw rest h
    simp only [encode_data, encode_prim]
    rw [if_neg h]
    cases parse_i256 raw size <;> rfl
  · intro v
    simp [abiWordOfInt, natToBeBytes]
  · intro n
    simp [abiWordOfNat, natToBeBytes]

/-- Witness for C3 at the claim's own input: `0x80` with declared size 1. -/
theorem int_leaf_sign_extension_witness :
    parse_i128 [0x80] 1 = .ok (twosComp (8 * 1) (beNat [0x80])) ∧
    parse_i256 [0x80, 0x00] 2 = .ok (twosComp (8 * 2) (beNat [0x80, 0x00])) ∧
    encode_data keccakStub [] (.primitive "int" (some 1)) ([0x80] :: []) =
      match parse_i128 [0x80] 1 with
      | .error e => .error e
      | .ok v => .ok (abiWordOfInt v, []) :=
  ⟨int_leaf_sign_extension.2.2.1 [0x80] 1 (by decide) (by decide) (by decide)
      (by decide),
   int_leaf_sign_extension.2.2.2.1 [0x80, 0x00] 2 (by decide) (by decide)
      (by decide) (by decide),
   int_leaf_sign_extension.2.2.2.2.1 keccakStub [] 1 [0x80] [] (by decide)
      (by decide)⟩

end Eip712

namespace Eip712

/-! ## C9 -/

/-- The complete set of error messages `from_bytes` can return: truncation
(`"Invalid len"`, the two `"Unexpected end of input ..."` messages), invalid
UTF-8, missing size, unknown kind id, unknown array-level kind. -/
def fromBytesErrors : List String :=
  ["Invalid len",
   "Unexpected end of input when reading custom name",
   "Unexpected end of input when reading field name",
   "Invalid UTF-8 in custom type",
   "Int type must specify size",
   "Unknown field type",
   "Unknown array level type"]

/-- `tryGetU8` only fails with the truncation message. -/
theorem tryGetU8_error (buf : List Nat) (e : String) (h : tryGetU8 buf = .error e) :
    e = "Invalid len" := by
  cases buf with
  | nil => simp [tryGetU8] at h; exact h.symm
  | cons b rest => simp [tryGetU8] at h

/-- `takeExact` only fails with its site-specific truncation message. -/
theorem takeExact_error (msg : String) (n : Nat) (buf : List Nat) (e : String)
    (h : takeExact msg n buf = .error e) : e = msg := by
  unfold takeExact at h
  split at h
  · simp at h
    exact h.symm
  · simp at h

/-- `parse_utf8_string` only fails with the encoding message. -/
theorem parse_utf8_string_error (d : List Nat) (e : String)
    (h : parse_utf8_string d = .error e) : e = "Invalid UTF-8 in custom type" := by
  unfold parse_utf8_string at h
  cases hd : utf8Decode d with
  | some cs => rw [hd] at h; simp at h
  | none => rw [hd] at h; simp at h; exact h.symm

/-- The array-level loop only fails on truncation or an unknown level kind. -/
theorem readLevels_error : ∀ (n : Nat) (buf : List Nat) (e : String),
    readLevels n buf = .error e →
    e = "Invalid len" ∨ e = "Unknown array level type" := by
  intro n
  induction n with
  | zero => intro buf e h; simp [readLevels] at h
  | succ m ih =>
    intro buf e h
    cases buf with
    | nil =>
      simp [readLevels, tryGetU8] at h
      exact Or.inl h.symm
    | cons d rest =>
      simp only [readLevels, tryGetU8] at h
      rcases d with _ | _ | d2
      · cases hr : readLevels m rest with
        | error e2 => rw [hr] at h; simp at h; exact h ▸ ih rest e2 hr
        | ok p => rw [hr] at h; obtain ⟨ls, b2⟩ := p; simp at h
      · cases rest with
        | nil => simp [tryGetU8] at h; exact Or.inl h.symm
        | cons s rest2 =>
          simp only [tryGetU8] at h
          cases hr : readLevels m rest2 with
          | error e2 => rw [hr] at h; simp at h; exact h ▸ ih rest2 e2 hr
          | ok p => rw [hr] at h; obtain ⟨ls, b2⟩ := p; simp at h
      · simp at h
        exact Or.inr h.symm

/-- A kind id of 8-15 is the fatal unknown-type error. -/
theorem readFieldType_unknown (d : Nat) (buf : List Nat) (h8 : 8 ≤ d &&& 0x0F) :
    readFieldType d buf = .error "Unknown field type" := by
  obtain ⟨w8, hw⟩ : ∃ w, d &&& 0x0F = w + 8 :=
    ⟨(d &&& 0x0F) - 8, (Nat.sub_add_cancel h8).symm⟩
  unfold readFieldType
  rw [hw]
  rfl

/-- Kind ids 1, 2 and 6 with bit 6 clear are the fatal missing-size error. -/
theorem readFieldType_missing_size (d : Nat) (buf : List Nat)
    (hk : d &&& 0x0F = 1 ∨ d &&& 0x0F = 2 ∨ d &&& 0x0F = 6)
    (hbit : ¬ d &&& 0x40 = 0x40) :
    readFieldType d buf = .error "Int type must specify size" := by
  unfold readFieldType
  rcases hk with hk | hk | hk <;> rw [hk] <;> dsimp only <;> rw [if_neg hbit]

/-- The kind-specific reader only fails with truncation, encoding,
missing-size or unknown-type errors. -/
theorem readFieldType_error (d : Nat) (buf : List Nat) (e : String)
    (h : readFieldType d buf = .error e) :
    e = "Invalid len" ∨ e = "Unexpected end of input when reading custom name" ∨
    e = "Invalid UTF-8 in custom type" ∨ e = "Int type must specify size" ∨
    e = "Unknown field type" := by
  unfold readFieldType at h
  obtain ⟨v, hv⟩ : ∃ v, d &&& 0x0F = v := ⟨_, rfl⟩
  rw [hv] at h
  have hvlt : v < 16 := hv ▸ Nat.and_lt_two_pow d (by norm_num : (0x0F : Nat) < 2 ^ 4)
  interval_cases v
  · -- custom
    dsimp only at h
    cases hg : tryGetU8 buf with
    | error e2 => rw [hg] at h; simp at h; exact Or.inl (h ▸ tryGetU8_error buf e2 hg)
    | ok p =>
      obtain ⟨len, b1⟩ := p
      rw [hg] at h
      dsimp only at h
      cases ht : takeExact "Unexpected end of input when reading custom name" len b1 with
      | error e2 =>
        rw [ht] at h; simp at h
        exact Or.inr (Or.inl (h ▸ takeExact_error _ len b1 e2 ht))
      | ok q =>
        obtain ⟨nb, b2⟩ := q
        rw [ht] at h
        dsimp only at h
        cases hu : parse_utf8_string nb with
        | error e2 =>
          rw [hu] at h; simp at h
          exact Or.inr (Or.inr (Or.inl (h ▸ parse_utf8_string_error nb e2 hu)))
        | ok s => rw [hu] at h; simp at h
  · -- int
    dsimp only at h
    split at h
    · cases hg : tryGetU8 buf with
      | error e2 => rw [hg] at h; simp at h; exact Or.inl (h ▸ tryGetU8_error buf e2 hg)
      | ok p => obtain ⟨s, b1⟩ := p; rw [hg] at h; simp at h
    · simp at h; exact Or.inr (Or.inr (Or.inr (Or.inl h.symm)))
  · -- uint
    dsimp only at h
    split at h
    · cases hg : tryGetU8 buf with
      | error e2 => rw [hg] at h; simp at h; exact Or.inl (h ▸ tryGetU8_error buf e2 hg)
      | ok p => obtain ⟨s, b1⟩ := p; rw [hg] at h; simp at h
    · simp at h; exact Or.inr (Or.inr (Or.inr (Or.inl h.symm)))
  · dsimp only at h; simp at h
  · dsimp only at h; simp at h
  · dsimp only at h; simp at h
  · -- fixed bytes
    dsimp only at h
    split at h
    · cases hg : tryGetU8 buf with
      | error e2 => rw [hg] at h; simp at h; exact Or.inl (h ▸ tryGetU8_error buf e2 hg)
      | ok p => obtain ⟨s, b1⟩ := p; rw [hg] at h; simp at h
    · simp at h; exact Or.inr (Or.inr (Or.inr (Or.inl h.symm)))
  · dsimp only at h; simp at h
  · dsimp only at h; simp at h; exact Or.inr (Or.inr (Or.inr (Or.inr h.symm)))
  · dsimp only at h; simp at h; exact Or.inr (Or.inr (Or.inr (Or.inr h.symm)))
  · dsimp only at h; simp at h; exact Or.inr (Or.inr (Or.inr (Or.inr h.symm)))
  · dsimp only at h; simp at h; exact Or.inr (Or.inr (Or.inr (Or.inr h.symm)))
  · dsimp only at h; simp at h; exact Or.inr (Or.inr (Or.inr (Or.inr h.symm)))
  · dsimp only at h; simp at h; exact Or.inr (Or.inr (Or.inr (Or.inr h.symm)))
  · dsimp only at h; simp at h; exact Or.inr (Or.inr (Or.inr (Or.inr h.symm)))
  · dsimp only at h; simp at h; exact Or.inr (Or.inr (Or.inr (Or.inr h.symm)))

end Eip712

namespace Eip712

/-- Every failure of the field-definition decoder carries one of the listed
messages: truncation, invalid UTF-8, missing size, unknown kind id or
unknown array-level kind. -/
theorem from_bytes_error (bytes : List Nat) (e : String)
    (h : from_bytes bytes = .error e) : e ∈ fromBytesErrors := by
  cases bytes with
  | nil =>
    simp [from_bytes, tryGetU8] at h
    simp_all [fromBytesErrors]
  | cons d rest =>
    simp only [from_bytes, tryGetU8] at h
    cases hft : readFieldType d rest with
    | error e2 =>
      rw [hft] at h
      simp at h
      rcases readFieldType_error d rest e2 hft with h5 | h5 | h5 | h5 | h5 <;>
        simp_all [fromBytesErrors]
    | ok p =>
      obtain ⟨ft, buf1⟩ := p
      rw [hft] at h
      dsimp only at h
      by_cases harr : d &&& 0x80 = 0x80
      · rw [if_pos harr] at h
        cases buf1 with
        | nil =>
          simp [tryGetU8] at h
          simp_all [fromBytesErrors]
        | cons cnt buf2 =>
          simp only [tryGetU8] at h
          cases hlv : readLevels cnt buf2 with
          | error e2 =>
            rw [hlv] at h
            simp at h
            rcases readLevels_error cnt buf2 e2 hlv with h5 | h5 <;>
              simp_all [fromBytesErrors]
          | ok q =>
            obtain ⟨levels, buf3⟩ := q
            rw [hlv] at h
            dsimp only at h
            cases buf3 with
            | nil =>
              simp [tryGetU8] at h
              simp_all [fromBytesErrors]
            | cons nl buf4 =>
              simp only [tryGetU8] at h
              cases htk : takeExact "Unexpected end of input when reading field name"
                  nl buf4 with
              | error e2 =>
                rw [htk] at h
                simp at h
                have := takeExact_error _ nl buf4 e2 htk
                simp_all [fromBytesErrors]
              | ok q2 =>
                obtain ⟨nb, buf5⟩ := q2
                rw [htk] at h
                dsimp only at h
                cases hu : parse_utf8_string nb with
                | error e2 =>
                  rw [hu] at h
                  simp at h
                  have := parse_utf8_string_error nb e2 hu
                  simp_all [fromBytesErrors]
                | ok nm => rw [hu] at h; simp at h
      · rw [if_neg harr] at h
        dsimp only at h
        cases buf1 with
        | nil =>
          simp [tryGetU8] at h
          simp_all [fromBytesErrors]
        | cons nl buf4 =>
          simp only [tryGetU8] at h
          cases htk : takeExact "Unexpected end of input when reading field name"
              nl buf4 with
          | error e2 =>
            rw [htk] at h
            simp at h
            have := takeExact_error _ nl buf4 e2 htk
            simp_all [fromBytesErrors]
          | ok q2 =>
            obtain ⟨nb, buf5⟩ := q2
            rw [htk] at h
            dsimp only at h
            cases hu : parse_utf8_string nb with
            | error e2 =>
              rw [hu] at h
              simp at h
              have := parse_utf8_string_error nb e2 hu
              simp_all [fromBytesErrors]
            | ok nm => rw [hu] at h; simp at h

/-- C9: the field-definition decoder fails exactly on malformed input: kind
id 8-15 is the fatal unknown-type error, an Int/Uint/FixedBytes descriptor
with bit 6 clear is the fatal missing-size error, an array-level kind of 2 or
more, reads past the end of the input, and invalid UTF-8 are fatal with
their respective messages; and every failure carries one of exactly these
messages (so every input free of these conditions decodes successfully). -/
theorem field_definition_decode_error_conditions :
    from_bytes [] = .error "Invalid len" ∧
    (∀ (d : Nat) (rest : List Nat), 8 ≤ d &&& 0x0F →
      from_bytes (d :: rest) = .error "Unknown field type") ∧
    (∀ (d : Nat) (rest : List Nat),
      (d &&& 0x0F = 1 ∨ d &&& 0x0F = 2 ∨ d &&& 0x0F = 6) → ¬ d &&& 0x40 = 0x40 →
      from_bytes (d :: rest) = .error "Int type must specify size") ∧
    from_bytes [0x84, 0x01, 0x02, 0x00] = .error "Unknown array level type" ∧
    from_bytes [0x00, 0x01, 0xFF] = .error "Invalid UTF-8 in custom type" ∧
    from_bytes [0x05, 0x01, 0xFF] = .error "Invalid UTF-8 in custom type" ∧
    from_bytes [0x41] = .error "Invalid len" ∧
    from_bytes [0x05, 0x04, 0x6e] =
      .error "Unexpected end of input when reading field name" ∧
    (∀ (bytes : List Nat) (e : String), from_bytes bytes = .error e →
      e ∈ fromBytesErrors) := by
  refine ⟨by decide, ?_, ?_, by decide, by decide, by decide, by decide, by decide,
    from_bytes_error⟩
  · intro d rest h8
    simp only [from_bytes, tryGetU8]
    rw [readFieldType_unknown d rest h8]
  · intro d rest hk hbit
    simp only [from_bytes, tryGetU8]
    rw [readFieldType_missing_size d rest hk hbit]

/-- Witness for C9 at concrete malformed inputs. -/
theorem field_definition_decode_error_conditions_witness :
    from_bytes (0x0F :: []) = .error "Unknown field type" ∧
    from_bytes (0x01 :: [0x05]) = .error "Int type must specify size" ∧
    "Invalid len" ∈ fromBytesErrors :=
  ⟨field_definition_decode_error_conditions.2.1 0x0F [] (by decide),
   field_definition_decode_error_conditions.2.2.1 0x01 [0x05] (by decide) (by decide),
   field_definition_decode_error_conditions.2.2.2.2.2.2.2.2 [] "Invalid len" (by decide)⟩

end Eip712

namespace Eip712

/-! ## C2 -/

/-- `Char`s with equal code points are equal. -/
theorem char_toNat_inj {a b : Char} (h : a.toNat = b.toNat) : a = b := by
  apply Char.eq_of_val_eq
  apply UInt32.ext
  exact h

/-- Strings with equal character data are equal. -/
theorem string_data_inj {a b : String} (h : a.data = b.data) : a = b := by
  cases a
  cases b
  exact congrArg String.mk h

/-- The code-point order is total. -/
theorem charListLe_total : ∀ a b : List Char,
    charListLe a b = true ∨ charListLe b a = true
  | [], _ => Or.inl rfl
  | _ :: _, [] => Or.inr rfl
  | a :: as, b :: bs => by
    unfold charListLe
    rcases Nat.lt_trichotomy a.toNat b.toNat with h | h | h
    · left
      rw [if_pos h]
    · simp only [if_neg (show ¬ a.toNat < b.toNat by omega),
        if_neg (show ¬ b.toNat < a.toNat by omega)]
      exact charListLe_total as bs
    · right
      rw [if_pos h]

/-- The code-point order is transitive. -/
theorem charListLe_trans : ∀ a b c : List Char,
    charListLe a b = true → charListLe b c = true → charListLe a c = true
  | [], _, _, _, _ => rfl
  | a :: as, [], c, hab, _ => by simp [charListLe] at hab
  | a :: as, b :: bs, [], _, hbc => by simp [charListLe] at hbc
  | a :: as, b :: bs, c :: cs, hab, hbc => by
    unfold charListLe at hab hbc ⊢
    by_cases h1 : a.toNat < b.toNat
    · by_cases h2 : b.toNat < c.toNat
      · rw [if_pos (show a.toNat < c.toNat by omega)]
      · rw [if_neg h2] at hbc
        by_cases h3 : c.toNat < b.toNat
        · rw [if_pos h3] at hbc
          simp at hbc
        · rw [if_pos (show a.toNat < c.toNat by omega)]
    · rw [if_neg h1] at hab
      by_cases h4 : b.toNat < a.toNat
      · rw [if_pos h4] at hab
        simp at hab
      · rw [if_neg h4] at hab
        by_cases h2 : b.toNat < c.toNat
        · rw [if_pos (show a.toNat < c.toNat by omega)]
        · rw [if_neg h2] at hbc
          by_cases h3 : c.toNat < b.toNat
          · rw [if_pos h3] at hbc
            simp at hbc
          · rw [if_neg h3] at hbc
            rw [if_neg (show ¬ a.toNat < c.toNat by omega),
              if_neg (show ¬ c.toNat < a.toNat by omega)]
            exact charListLe_trans as bs cs hab hbc

/-- Non-strict plus distinct is strict. -/
theorem charListLt_of_le_of_ne : ∀ a b : List Char,
    charListLe a b = true → a ≠ b → charListLt a b = true
  | [], [], _, hne => absurd rfl hne
  | [], _ :: _, _, _ => rfl
  | _ :: _, [], hab, _ => by simp [charListLe] at hab
  | a :: as, b :: bs, hab, hne => by
    unfold charListLe at hab
    unfold charListLt
    by_cases h1 : a.toNat < b.toNat
    · rw [if_pos h1]
    · rw [if_neg h1] at hab ⊢
      by_cases h2 : b.toNat < a.toNat
      · rw [if_pos h2] at hab
        simp at hab
      · rw [if_neg h2] at hab ⊢
        have hc : a = b := char_toNat_inj (by omega)
        subst hc
        refine charListLt_of_le_of_ne as bs hab ?_
        intro hEq
        exact hne (by rw [hEq])

/-- Strict then non-strict is strict. -/
theorem charListLt_le_trans : ∀ a b c : List Char,
    charListLt a b = true → charListLe b c = true → charListLt a c = true
  | [], [], _, hab, _ => by simp [charListLt] at hab
  | [], _ :: _, [], _, hbc => by simp [charListLe] at hbc
  | [], _ :: _, _ :: _, _, _ => rfl
  | _ :: _, [], _, hab, _ => by simp [charListLt] at hab
  | a :: as, b :: bs, [], _, hbc => by simp [charListLe] at hbc
  | a :: as, b :: bs, c :: cs, hab, hbc => by
    unfold charListLt at hab ⊢
    unfold charListLe at hbc
    by_cases h1 : a.toNat < b.toNat
    · by_cases h2 : b.toNat < c.toNat
      · rw [if_pos (show a.toNat < c.toNat by omega)]
      · rw [if_neg h2] at hbc
        by_cases h3 : c.toNat < b.toNat
        · rw [if_pos h3] at hbc
          simp at hbc
        · rw [if_pos (show a.toNat < c.toNat by omega)]
    · rw [if_neg h1] at hab
      by_cases h4 : b.toNat < a.toNat
      · rw [if_pos h4] at hab
        simp at hab
      · rw [if_neg h4] at hab
        by_cases h2 : b.toNat < c.toNat
        · rw [if_pos (show a.toNat < c.toNat by omega)]
        · rw [if_neg h2] at hbc
          by_cases h3 : c.toNat < b.toNat
          · rw [if_pos h3] at hbc
            simp at hbc
          · rw [if_neg h3] at hbc
            rw [if_neg (show ¬ a.toNat < c.toNat by omega),
              if_neg (show ¬ c.toNat < a.toNat by omega)]
            exact charListLt_le_trans as bs cs hab hbc

/-- Totality, lifted to strings. -/
theorem strLe_total (a b : String) : strLe a b = true ∨ strLe b a = true :=
  charListLe_total a.data b.data

/-- Transitivity, lifted to strings. -/
theorem strLe_trans (a b c : String) (h1 : strLe a b = true) (h2 : strLe b c = true) :
    strLe a c = true :=
  charListLe_trans a.data b.data c.data h1 h2

/-- Non-strict plus distinct is strict, lifted to strings. -/
theorem strLt_of_le_of_ne (a b : String) (h : strLe a b = true) (hne : a ≠ b) :
    strLt a b = true :=
  charListLt_of_le_of_ne a.data b.data h (fun hd => hne (string_data_inj hd))

/-- Strict then non-strict is strict, lifted to strings. -/
theorem strLt_le_trans (a b c : String) (h1 : strLt a b = true) (h2 : strLe b c = true) :
    strLt a c = true :=
  charListLt_le_trans a.data b.data c.data h1 h2

/-- Membership in an insertion step. -/
theorem mem_insertSorted (x y : String) : ∀ l : List String,
    y ∈ insertSorted x l ↔ y = x ∨ y ∈ l
  | [] => by simp [insertSorted]
  | z :: zs => by
    unfold insertSorted
    by_cases h : strLe x z = true
    · rw [if_pos h]
      simp
      try tauto
    · rw [if_neg h]
      simp [mem_insertSorted x y zs]
      try tauto

/-- Insertion preserves sortedness. -/
theorem pairwise_le_insertSorted (x : String) : ∀ l : List String,
    l.Pairwise (fun a b => strLe a b = true) →
    (insertSorted x l).Pairwise (fun a b => strLe a b = true)
  | [], _ => by simp [insertSorted]
  | z :: zs, hp => by
    unfold insertSorted
    obtain ⟨hz, hzs⟩ := List.pairwise_cons.mp hp
    by_cases h : strLe x z = true
    · rw [if_pos h]
      refine List.Pairwise.cons ?_ hp
      intro y hy
      rcases List.mem_cons.mp hy with rfl | hy2
      · exact h
      · exact strLe_trans x z y h (hz y hy2)
    · rw [if_neg h]
      refine List.Pairwise.cons ?_ (pairwise_le_insertSorted x zs hzs)
      intro y hy
      rcases (mem_insertSorted x y zs).mp hy with hyx | hy2
      · subst hyx
        rcases strLe_total y z with ht | ht
        · exact absurd ht h
        · exact ht
      · exact hz y hy2

/-- `sortStrings` sorts. -/
theorem pairwise_le_sortStrings (l : List String) :
    (sortStrings l).Pairwise (fun a b => strLe a b = true) := by
  induction l with
  | nil => simp [sortStrings]
  | cons x xs ih => exact pairwise_le_insertSorted x (sortStrings xs) ih

/-- `sortStrings` keeps exactly the same elements. -/
theorem mem_sortStrings (y : String) (l : List String) :
    y ∈ sortStrings l ↔ y ∈ l := by
  induction l with
  | nil => simp [sortStrings]
  | cons x xs ih =>
    show y ∈ insertSorted x (sortStrings xs) ↔ _
    rw [mem_insertSorted]
    simp [ih]
    try tauto

/-- `dedupConsec` keeps exactly the same elements. -/
theorem mem_dedupConsec (y : String) : ∀ l : List String,
    y ∈ dedupConsec l ↔ y ∈ l
  | [] => by simp [dedupConsec]
  | [x] => by simp [dedupConsec]
  | x :: z :: rest => by
    unfold dedupConsec
    by_cases h : x = z
    · rw [if_pos h, mem_dedupConsec y (z :: rest)]
      simp [h]
      try tauto
    · rw [if_neg h]
      simp [mem_dedupConsec y (z :: rest)]

/-- Deduplicating a sorted list yields a strictly ascending list. -/
theorem pairwise_lt_dedupConsec : ∀ l : List String,
    l.Pairwise (fun a b => strLe a b = true) →
    (dedupConsec l).Pairwise (fun a b => strLt a b = true)
  | [], _ => by simp [dedupConsec]
  | [x], _ => by simp [dedupConsec]
  | x :: z :: rest, hp => by
    unfold dedupConsec
    obtain ⟨hx, hp2⟩ := List.pairwise_cons.mp hp
    by_cases h : x = z
    · rw [if_pos h]
      exact pairwise_lt_dedupConsec (z :: rest) hp2
    · rw [if_neg h]
      refine List.Pairwise.cons ?_ (pairwise_lt_dedupConsec (z :: rest) hp2)
      intro y hy
      have hyz : y ∈ z :: rest := (mem_dedupConsec y (z :: rest)).mp hy
      have hxz : strLt x z = true := strLt_of_le_of_ne x z (hx z (by simp)) h
      rcases List.mem_cons.mp hyz with rfl | h1
      · exact hxz
      · obtain ⟨hz2, -⟩ := List.pairwise_cons.mp hp2
        exact strLt_le_trans x z y hxz (hz2 y h1)

end Eip712

namespace Eip712

/-- `c` is a custom type transitively reachable from `t`'s fields: some
struct-typed field of `t` names `c`, or names an intermediate struct from
which `c` is reachable. -/
inductive ReachCustom (defs : Eip712StructDefinitions) : String → String → Prop where
  | head (t : String) (fds : List Eip712FieldDefinition) (f : Eip712FieldDefinition)
      (hl : lookupDefs defs t = some fds) (hf : f ∈ fds) (hs : f.is_struct = true) :
      ReachCustom defs t f.field_type.type_string
  | step (t : String) (fds : List Eip712FieldDefinition) (f : Eip712FieldDefinition)
      (c : String) (hl : lookupDefs defs t = some fds) (hf : f ∈ fds)
      (hs : f.is_struct = true)
      (hr : ReachCustom defs f.field_type.type_string c) : ReachCustom defs t c

/-- What the field loop of `find_sub_custom_types` collects: each
struct-typed field's own custom type name, plus everything the recursive
call on that field returned. -/
theorem collectSubs_mem (recCall : String → Except String (List String)) :
    ∀ (fds : List Eip712FieldDefinition) (res : List String),
      collectSubs recCall fds = .ok res →
      ∀ x, x ∈ res ↔ ∃ f, f ∈ fds ∧ f.is_struct = true ∧
        (x = f.field_type.type_string ∨
          ∃ l, recCall f.field_type.type_string = .ok l ∧ x ∈ l)
  | [], res, h, x => by
    simp [collectSubs] at h
    subst h
    simp
  | f :: fs, res, h, x => by
    unfold collectSubs at h
    by_cases hs : f.is_struct = true
    · rw [if_pos hs] at h
      cases hr : recCall f.field_type.type_string with
      | error e => rw [hr] at h; simp at h
      | ok sub =>
        rw [hr] at h
        cases hcs : collectSubs recCall fs with
        | error e => rw [hcs] at h; simp at h
        | ok rest =>
          rw [hcs] at h
          simp at h
          have ih := collectSubs_mem recCall fs rest hcs x
          constructor
          · intro hx
            rw [← h] at hx
            rcases List.mem_append.mp hx with hx1 | hx1
            · exact ⟨f, List.mem_cons_self f fs, hs, Or.inr ⟨sub, hr, hx1⟩⟩
            · rcases List.mem_cons.mp hx1 with hx2 | hx2
              · exact ⟨f, List.mem_cons_self f fs, hs, Or.inl hx2⟩
              · obtain ⟨g, hg, hgs, hor⟩ := ih.mp hx2
                exact ⟨g, List.mem_cons_of_mem f hg, hgs, hor⟩
          · rintro ⟨g, hg, hgs, hor⟩
            rw [← h]
            rcases List.mem_cons.mp hg with hgf | hgf
            · subst hgf
              rcases hor with hor | ⟨l2, hl2, hx2⟩
              · exact List.mem_append.mpr (Or.inr (by simp [hor]))
              · rw [hr] at hl2
                injection hl2 with hl2
                subst hl2
                exact List.mem_append.mpr (Or.inl hx2)
            · refine List.mem_append.mpr (Or.inr (List.mem_cons_of_mem _ ?_))
              exact ih.mpr ⟨g, hgf, hgs, hor⟩
    · rw [if_neg hs] at h
      have ih := collectSubs_mem recCall fs res h x
      rw [ih]
      constructor
      · rintro ⟨g, hg, hgs, hor⟩
        exact ⟨g, List.mem_cons_of_mem f hg, hgs, hor⟩
      · rintro ⟨g, hg, hgs, hor⟩
        rcases List.mem_cons.mp hg with hgf | hgf
        · subst hgf
          exact absurd hgs hs
        · exact ⟨g, hgf, hgs, hor⟩

/-- A successful field loop implies each struct-typed field's recursive call
succeeded. -/
theorem collectSubs_ok_sub (recCall : String → Except String (List String)) :
    ∀ (fds : List Eip712FieldDefinition) (res : List String),
      collectSubs recCall fds = .ok res →
      ∀ f, f ∈ fds → f.is_struct = true →
        ∃ l, recCall f.field_type.type_string = .ok l
  | [], res, h, f, hf, _ => by simp at hf
  | g :: gs, res, h, f, hf, hs => by
    unfold collectSubs at h
    by_cases hgs : g.is_struct = true
    · rw [if_pos hgs] at h
      cases hr : recCall g.field_type.type_string with
      | error e => rw [hr] at h; simp at h
      | ok sub =>
        rw [hr] at h
        cases hcs : collectSubs recCall gs with
        | error e => rw [hcs] at h; simp at h
        | ok rest =>
          rcases List.mem_cons.mp hf with hgf | hf2
          · subst hgf
            exact ⟨sub, hr⟩
          · exact collectSubs_ok_sub recCall gs rest hcs f hf2 hs
    · rw [if_neg hgs] at h
      rcases List.mem_cons.mp hf with hgf | hf2
      · subst hgf
        exact absurd hs hgs
      · exact collectSubs_ok_sub recCall gs res h f hf2 hs

/-- A successful `find_sub_custom_types` run returns exactly the custom
types transitively reachable from `t`. -/
theorem find_sub_mem_iff (defs : Eip712StructDefinitions) :
    ∀ (fuel : Nat) (t : String) (l : List String),
      find_sub_custom_types defs fuel t = .ok l →
      ∀ x, x ∈ l ↔ ReachCustom defs t x := by
  intro fuel
  induction fuel with
  | zero => intro t l h; simp [find_sub_custom_types] at h
  | succ m ih =>
    intro t l h x
    simp only [find_sub_custom_types] at h
    cases hl : lookupDefs defs t with
    | none => rw [hl] at h; simp at h
    | some fds =>
      rw [hl] at h
      dsimp only at h
      cases hc : collectSubs (find_sub_custom_types defs m) fds with
      | error e => rw [hc] at h; simp at h
      | ok res =>
        rw [hc] at h
        simp at h
        rw [← h, mem_dedupConsec, mem_sortStrings,
          collectSubs_mem (find_sub_custom_types defs m) fds res hc x]
        constructor
        · rintro ⟨f, hf, hs, hor⟩
          rcases hor with rfl | ⟨lf, hlf, hx⟩
          · exact ReachCustom.head t fds f hl hf hs
          · exact ReachCustom.step t fds f x hl hf hs ((ih _ lf hlf x).mp hx)
        · intro hr
          cases hr with
          | head _ fds2 f hl2 hf hs =>
            rw [hl] at hl2
            injection hl2 with he
            subst he
            exact ⟨f, hf, hs, Or.inl rfl⟩
          | step _ fds2 f c hl2 hf hs hrec =>
            rw [hl] at hl2
            injection hl2 with he
            subst he
            obtain ⟨lf, hlf⟩ :=
              collectSubs_ok_sub (find_sub_custom_types defs m) fds res hc f hf hs
            exact ⟨f, hf, hs, Or.inr ⟨lf, hlf, (ih _ lf hlf x).mpr hrec⟩⟩

/-- A successful `find_sub_custom_types` run is strictly ascending (sorted
lexicographically with no duplicates). -/
theorem find_sub_pairwise (defs : Eip712StructDefinitions) (fuel : Nat)
    (t : String) (l : List String)
    (h : find_sub_custom_types defs fuel t = .ok l) :
    l.Pairwise (fun a b => strLt a b = true) := by
  cases fuel with
  | zero => simp [find_sub_custom_types] at h
  | succ m =>
    simp only [find_sub_custom_types] at h
    cases hl : lookupDefs defs t with
    | none => rw [hl] at h; simp at h
    | some fds =>
      rw [hl] at h
      dsimp only at h
      cases hc : collectSubs (find_sub_custom_types defs m) fds with
      | error e => rw [hc] at h; simp at h
      | ok res =>
        rw [hc] at h
        simp at h
        rw [← h]
        exact pairwise_lt_dedupConsec (sortStrings res) (pairwise_le_sortStrings res)

/-- The structure of a successful `encode_type`: own signature followed by
the own signatures of the sorted sub custom types, concatenated. -/
theorem encode_type_structure (struct_types : List (String × String))
    (defs : Eip712StructDefinitions) (fuel : Nat) (t s : String)
    (h : encode_type struct_types defs fuel t = .ok s) :
    ∃ own subs sigs, lookupStr struct_types t = some own ∧
      find_sub_custom_types defs fuel t = .ok subs ∧
      subSignatures struct_types subs = .ok sigs ∧
      s = own ++ String.join sigs := by
  unfold encode_type at h
  cases h1 : lookupStr struct_types t with
  | none => rw [h1] at h; simp at h
  | some own =>
    rw [h1] at h
    dsimp only at h
    cases h2 : find_sub_custom_types defs fuel t with
    | error e => rw [h2] at h; simp at h
    | ok subs =>
      rw [h2] at h
      dsimp only at h
      cases h3 : subSignatures struct_types subs with
      | error e => rw [h3] at h; simp at h
      | ok sigs =>
        rw [h3] at h
        simp at h
        exact ⟨own, subs, sigs, rfl, rfl, h3, h.symm⟩

/-- C2: the full type string of a struct is its own signature followed by
the own signatures of the custom types transitively reachable from its
fields, deduplicated and strictly ascending in lexicographic order (not
dependency order); in particular the `{Person, Mail}` scenario yields the
expected `Mail` full type string. -/
theorem full_type_string_sorted_reachable :
    encode_type (encode_types_without_sub_type mailDefs) mailDefs 3 "Mail" =
      .ok "Mail(Person from,Person to,string contents)Person(string name,address[] wallets)" ∧
    (∀ (defs : Eip712StructDefinitions) (fuel : Nat) (t : String) (l : List String),
      find_sub_custom_types defs fuel t = .ok l →
      l.Pairwise (fun a b => strLt a b = true) ∧
      (∀ x, x ∈ l ↔ ReachCustom defs t x)) ∧
    (∀ (struct_types : List (String × String)) (defs : Eip712StructDefinitions)
        (fuel : Nat) (t s : String),
      encode_type struct_types defs fuel t = .ok s →
      ∃ own subs sigs, lookupStr struct_types t = some own ∧
        find_sub_custom_types defs fuel t = .ok subs ∧
        subSignatures struct_types subs = .ok sigs ∧
        s = own ++ String.join sigs) :=
  ⟨by decide,
   fun defs fuel t l h =>
     ⟨find_sub_pairwise defs fuel t l h, find_sub_mem_iff defs fuel t l h⟩,
   encode_type_structure⟩

/-- Witness for C2 on the scenario registry: the collected sub-type list of
`Mail` is `["Person"]`, strictly sorted, and `"Person"` is reachable. -/
theorem full_type_string_sorted_reachable_witness :
    List.Pairwise (fun a b => strLt a b = true) ["Person"] ∧
    ("Person" ∈ (["Person"] : List String) ↔ ReachCustom mailDefs "Mail" "Person") :=
  ⟨(full_type_string_sorted_reachable.2.1 mailDefs 3 "Mail" ["Person"] (by decide)).1,
   (full_type_string_sorted_reachable.2.1 mailDefs 3 "Mail" ["Person"] (by decide)).2
     "Person"⟩

end Eip712
